import Mathlib

/-!
Verification of the pds-julian batch date/time codec (julian/formatter.py and
julian/iso_parser.py) against its natural-language specification.

The Python source is shallowly embedded over List Char (one list per text or
byte record), with Python/NumPy integers as Int and Python floats modelled as
exact rationals.  Fallible code returns Except String.  The calendar, leap
second and time-of-day modules are external collaborators of the two source
files (spec section 6) and are modelled from the spec: the calendar functions
as an explicit adapter structure, the time-of-day conversions as concrete
rational arithmetic.
-/

deriving instance DecidableEq for Except

namespace Julian

/-! ## Character and digit-table helpers -/

/-- Null character used by NumPy to pad byte records. -/
def nullCh : Char := Char.ofNat 0

/-- Textual rendering of the decimal digit k, for k smaller than 10
(the entries of the DIGITS lookup tables in formatter.py). -/
def digitChar (k : ℕ) : Char :=
  match k with
  | 0 => '0' | 1 => '1' | 2 => '2' | 3 => '3' | 4 => '4'
  | 5 => '5' | 6 => '6' | 7 => '7' | 8 => '8' | 9 => '9'
  | _ => '*'

/-- Zero-padded base-10 rendering of n with exactly w characters
(the leading digits of n beyond 10 ^ w are dropped; callers guarantee
n < 10 ^ w, in which case this is the usual decimal string). -/
def natDigits : ℕ → ℕ → List Char
  | 0, _ => []
  | w + 1, n => digitChar (n / 10 ^ w % 10) :: natDigits w n

/-- Number of characters in the plain decimal rendering of n. -/
def decimalWidth (n : ℕ) : ℕ := Nat.log 10 n + 1

/-- Python percent-formatting of a natural number, zero padded to
width w ("%0wd"): exactly w characters when n < 10 ^ w, otherwise the
full unpadded decimal rendering. -/
def pyPadNat (w : ℕ) (n : ℕ) : List Char :=
  if n < 10 ^ w then natDigits w n else natDigits (decimalWidth n) n

/-- Python percent-formatting of an integer, zero padded to total width w
including the sign character ("%0wd"). -/
def pyPadInt (w : ℕ) (i : ℤ) : List Char :=
  if i < 0 then '-' :: pyPadNat (w - 1) (-i).toNat else pyPadNat w i.toNat

/-- True when c is one of the characters 0 through 9. -/
def isDigitCh (c : Char) : Bool := '0' ≤ c && c ≤ '9'

/-- Numeric value of a digit character. -/
def digitVal (c : Char) : ℕ := c.toNat - 48

/-- Value of a list of digit characters read in base 10. -/
def parseDigits (s : List Char) : ℕ :=
  s.foldl (fun a c => 10 * a + digitVal c) 0

/-- Drop from the right of a list while the predicate holds. -/
def dropTrailing (p : Char → Bool) (s : List Char) : List Char :=
  (s.reverse.dropWhile p).reverse

/-- NumPy strips the trailing null padding of a byte record before
exposing it as a Python value. -/
def stripTrailingNulls (s : List Char) : List Char :=
  dropTrailing (fun c => c = nullCh) s

/-- Sign-and-digits part of Python int() on an already stripped string:
an optional sign is followed by at least one digit; anything else is a
ValueError. -/
def pythonIntCore : List Char → Except String ℤ
  | [] => .error "invalid integer literal"
  | c :: rest =>
    if c = '-' then
      if !rest.isEmpty && rest.all isDigitCh then .ok (-(parseDigits rest : ℤ))
      else .error "invalid integer literal"
    else if c = '+' then
      if !rest.isEmpty && rest.all isDigitCh then .ok (parseDigits rest : ℤ)
      else .error "invalid integer literal"
    else
      if (c :: rest).all isDigitCh then .ok (parseDigits (c :: rest) : ℤ)
      else .error "invalid integer literal"

/-- Python int() applied to the bytes of a fixed-width record field:
trailing nulls are removed by NumPy, surrounding blanks are tolerated,
then the sign-and-digits core parser runs. -/
def pythonInt (s : List Char) : Except String ℤ :=
  pythonIntCore (dropTrailing (fun c => c = ' ')
    ((stripTrailingNulls s).dropWhile (fun c => c = ' ')))

/-- Index of the first occurrence of a character satisfying p, with
positions counted from k. -/
def idxFrom (p : Char → Bool) : List Char → ℤ → Option ℤ
  | [], _ => none
  | c :: cs, k => if p c then some k else idxFrom p cs (k + 1)

/-- Python str.find: index of the first occurrence of c in s, or -1. -/
def pyFind (s : List Char) (c : Char) : ℤ :=
  match idxFrom (fun x => x = c) s 0 with
  | some i => i
  | none => -1

/-- Python str.find(c, start): first occurrence at an index at least
start, or -1. -/
def pyFindFrom (s : List Char) (c : Char) (start : ℕ) : ℤ :=
  match idxFrom (fun x => x = c) (s.drop start) (start : ℤ) with
  | some i => i
  | none => -1

/-- All positions of character c in s, counted from k (np.where over the
character array of a string). -/
def idxsFrom (c : Char) : List Char → ℤ → List ℤ
  | [], _ => []
  | x :: xs, k =>
    if x = c then k :: idxsFrom c xs (k + 1) else idxsFrom c xs (k + 1)

/-- All positions of character c in s. -/
def idxsOf (s : List Char) (c : Char) : List ℤ := idxsFrom c s 0

/-- Field slice of a record: width w starting at byte offset off
(NumPy structured-dtype field access; offsets are Python ints and are
nonnegative whenever NumPy accepts the dtype). -/
def sliceZ (s : List Char) (off w : ℤ) : List Char :=
  (s.drop off.toNat).take w.toNat

/-- The helper _count_white of iso_parser.py: number of leading and of
trailing blanks, computed with Python for-loops whose index keeps its
last value when no break occurs. -/
def countWhite (s : List Char) : ℕ × ℕ :=
  if s.length = 0 then (0, 0)
  else
    ((match idxFrom (fun c => !(c = ' ')) s 0 with
      | some i => i.toNat
      | none => s.length - 1),
     (match idxFrom (fun c => !(c = ' ')) s.reverse 0 with
      | some i => i.toNat
      | none => s.length - 1))

/-- Python int() truncation toward zero of a real value (the utility
_int applied to floats). -/
def pyInt (q : ℚ) : ℤ := if q < 0 then -⌊-q⌋ else ⌊q⌋

/-! ## External calendar adapter and time-of-day model -/

/-- Modelled from the spec: the external Calendar/Time Adapter of
section 6 (julian.calendar and julian.leap_seconds, which are not part
of the two source files under verification).  Each calendar function
takes the proleptic flag; the valid predicates describe which field
combinations pass the validate checks; seconds_on_day gives the length
of a day, normally 86400 but different on leap-second days. -/
structure CalendarAdapter where
  ymd_from_day : Bool → ℤ → ℤ × ℤ × ℤ
  day_from_ymd : Bool → ℤ → ℤ → ℤ → ℤ
  valid_ymd : Bool → ℤ → ℤ → ℤ → Bool
  yd_from_day : Bool → ℤ → ℤ × ℤ
  day_from_yd : Bool → ℤ → ℤ → ℤ
  valid_yd : Bool → ℤ → ℤ → Bool
  seconds_on_day : ℚ → ℚ

/-- Modelled from the spec: day_from_ymd with its validate flag, which
fails with an InvalidCalendarValue error on out-of-range fields. -/
def callDayFromYmd (A : CalendarAdapter) (validate proleptic : Bool)
    (y m d : ℤ) : Except String ℤ :=
  if validate && !(A.valid_ymd proleptic y m d) then
    .error "invalid calendar value"
  else
    .ok (A.day_from_ymd proleptic y m d)

/-- Modelled from the spec: day_from_yd with its validate flag. -/
def callDayFromYd (A : CalendarAdapter) (validate proleptic : Bool)
    (y d : ℤ) : Except String ℤ :=
  if validate && !(A.valid_yd proleptic y d) then
    .error "invalid calendar value"
  else
    .ok (A.day_from_yd proleptic y d)

/-- Modelled from the spec: hms_from_sec of julian.time_of_day (not in
the source files).  Hours are capped at 23 and minutes at 59 so that
leap seconds appear as second values of 60 and above, matching the
format_sec docstring which admits inputs below 86410. -/
def hmsFromSec (sec : ℚ) : ℤ × ℤ × ℚ :=
  let h := min ⌊sec / 3600⌋ 23
  let m := min ⌊(sec - 3600 * h) / 60⌋ 59
  (h, m, sec - 3600 * h - 60 * m)

/-- Modelled from the spec: sec_from_hms of julian.time_of_day (not in
the source files); with validate it rejects out-of-range fields, where
leapsecs admits second values up to but excluding 61. -/
def secFromHms (validate leapsecs : Bool) (h m s : ℚ) :
    Except String ℚ :=
  if validate &&
      !(decide (0 ≤ h) && decide (h < 24) && decide (0 ≤ m) &&
        decide (m < 60) && decide (0 ≤ s) &&
        decide (s < (if leapsecs then 61 else 60))) then
    .error "invalid time value"
  else
    .ok (3600 * h + 60 * m + s)

/-! ## The truncation-with-bias rounding rule (three source sites) -/

/-- The integer/fraction split bias rule of format_day, formatter.py
line 66: day = ((day * scale + 0.5)//1 + 0.1)/scale with
scale = 10 ** ddigits. -/
def dayRound (ddigits : ℕ) (x : ℚ) : ℚ :=
  ((⌊x * 10 ^ ddigits + 1 / 2⌋ : ℚ) + 1 / 10) / 10 ^ ddigits

/-- The same rule in format_sec, formatter.py line 258. -/
def secRound (digits : ℕ) (x : ℚ) : ℚ :=
  ((⌊x * 10 ^ digits + 1 / 2⌋ : ℚ) + 1 / 10) / 10 ^ digits

/-- The same rule in format_day_sec, formatter.py line 464. -/
def daySecRound (digits : ℕ) (x : ℚ) : ℚ :=
  ((⌊x * 10 ^ digits + 1 / 2⌋ : ℚ) + 1 / 10) / 10 ^ digits

/-- The fractional-digit loop of formatter.py lines 212-217 and 377-382:
multiply the running fraction by 10, emit the integer part, subtract it
out, repeat. -/
def fracDigitsLoop (frac : ℚ) : ℕ → List ℤ
  | 0 => []
  | n + 1 => ⌊frac * 10⌋ :: fracDigitsLoop (frac * 10 - ⌊frac * 10⌋) n

/-- The base-10 digits of m, most significant first, zero padded to d
places (the reference value that the rendered fraction must equal). -/
def decimalDigitsZ (m : ℤ) : ℕ → List ℤ
  | 0 => []
  | d + 1 => m / 10 ^ d % 10 :: decimalDigitsZ (m % 10 ^ d) d

/-! ## Encoder: scalar paths of format_day, format_sec, format_day_sec -/

/-- A day input to format_day: a Python int or a Python float
(_is_float distinguishes the two). -/
def DayInput := ℤ ⊕ ℚ

/-- Concatenate field strings with the dash separator between
consecutive fields (the fmt_list construction of format_day). -/
def joinFields (dash : List Char) : List (List Char) → List Char
  | [] => []
  | [x] => x
  | x :: xs => x ++ dash ++ joinFields dash xs

/-- format_day of formatter.py (scalar input, no caller buffer, text
kind): renders one date record from a day number via the calendar
adapter.  A fraction is attached only for float input with a
nonnegative ddigits. -/
def formatDayScalar (A : CalendarAdapter) (day : DayInput) (order : String)
    (ydigits : ℕ) (dash : String) (ddigits : Option ℤ) (proleptic : Bool) :
    Except String (List Char) :=
  if !(order ∈ ["YMD", "MDY", "DMY", "YD", "DY"]) then
    .error ("unrecognized date format order: " ++ order)
  else if !(ydigits = 2 || ydigits = 4) then
    .error "ydigits must equal 2 or 4"
  else
    let hasDot := (match day, ddigits with
      | .inr _, some dd => decide (0 ≤ dd)
      | _, _ => false)
    let intDay : ℤ := (match day, ddigits with
      | .inl i, _ => i
      | .inr v, some dd => if 0 ≤ dd then pyInt (dayRound dd.toNat v) else pyInt v
      | .inr v, none => pyInt v)
    let frac : ℚ := (match day, ddigits with
      | .inr v, some dd =>
        if 0 ≤ dd then dayRound dd.toNat v - pyInt (dayRound dd.toNat v) else 0
      | _, _ => 0)
    let dlen : ℕ := if order.length = 2 then 3 else 2
    let ymd := A.ymd_from_day proleptic intDay
    let yd := A.yd_from_day proleptic intDay
    let y0 : ℤ := if order.length = 3 then ymd.1 else yd.1
    let m : ℤ := if order.length = 3 then ymd.2.1 else 0
    let d : ℤ := if order.length = 3 then ymd.2.2 else yd.2
    let y : ℤ := if ydigits = 2 then y0 % 100 else y0
    let ddVal : ℤ := (match ddigits with | some dd => dd | none => 0)
    let f : ℤ := if hasDot && decide (0 < ddVal)
                 then ⌊frac * 10 ^ ddVal.toNat⌋ else 0
    let fieldStr : Char → List Char := fun c =>
      if c = 'Y' then pyPadInt ydigits y
      else if c = 'M' then pyPadInt 2 m
      else pyPadInt dlen d ++
        (if hasDot then
          '.' :: (if 0 < ddVal then pyPadInt ddVal.toNat f else [])
         else [])
    .ok (joinFields dash.toList (order.toList.map fieldStr))

/-- format_sec of formatter.py (scalar input, no caller buffer, text
kind): renders one time-of-day record.  Hours, minutes and the integer
seconds field come from hms_from_sec applied to the unrounded input;
the fraction comes from the bias-rounded value. -/
def formatSecScalar (sec : ℚ) (digits : Option ℤ) (colon suffix : String) :
    List Char :=
  let hms := hmsFromSec sec
  let h := hms.1
  let m := hms.2.1
  let s := hms.2.2
  let base := pyPadInt 2 h ++ colon.toList ++ pyPadInt 2 m ++ colon.toList ++
              pyPadInt 2 (pyInt s)
  let tail := (match digits with
    | some d =>
      if 0 ≤ d then
        if 0 < d then
          let r := secRound d.toNat sec
          let frac := r - (pyInt r : ℚ)
          '.' :: pyPadInt d.toNat ⌊frac * 10 ^ d.toNat⌋
        else ['.']
      else []
    | none => [])
  base ++ tail ++ suffix.toList

/-- format_day_sec of formatter.py (scalar inputs, no caller buffer,
text kind): bias-rounds the seconds, applies the leap-second-aware day
rollover, then concatenates the date record, the separator and the time
record in the requested order. -/
def formatDaySecScalar (A : CalendarAdapter) (day : ℤ) (sec : ℚ)
    (order : String) (ydigits : ℕ) (dash sep colon : String)
    (digits : Option ℤ) (suffix : String) (proleptic : Bool) :
    Except String (List Char) := do
  let ymdOrder := String.mk (order.toList.filter (fun c => !(c = 'T')))
  if !(order.toList.headD ' ' = 'T' || order.toList.getLastD ' ' = 'T') then
    .error "missing T in order specification"
  else
    let digitsU : ℕ := (match digits with | some d => (max d 0).toNat | none => 0)
    let secR := daySecRound digitsU sec
    let sod := A.seconds_on_day (day : ℚ)
    let day2 : ℤ := if sod ≤ secR then day + 1 else day
    let sec2 : ℚ := if sod ≤ secR then secR - sod else secR
    let dayStr ← formatDayScalar A (.inl day2) ymdOrder ydigits dash none proleptic
    let secStr := formatSecScalar sec2 digits colon suffix
    if order.toList.headD ' ' = 'T' then
      .ok (secStr ++ sep.toList ++ dayStr)
    else
      .ok (dayStr ++ sep.toList ++ secStr)

/-- The rounding-and-rollover stage of format_day_sec, formatter.py
lines 461-477, applied to a whole batch: every element is adjusted
independently. -/
def rolloverBatch (A : CalendarAdapter) (digits : Option ℤ)
    (days : List ℤ) (secs : List ℚ) : List ℤ × List ℚ :=
  let digitsU : ℕ := (match digits with | some d => (max d 0).toNat | none => 0)
  let adj := fun (p : ℤ × ℚ) =>
    let secR := daySecRound digitsU p.2
    let sod := A.seconds_on_day (p.1 : ℚ)
    if sod ≤ secR then (p.1 + 1, secR - sod) else (p.1, secR)
  let pairs := (days.zip secs).map adj
  (pairs.map Prod.fst, pairs.map Prod.snd)

/-! ## Decoder: day_from_iso, sec_from_iso, day_sec_from_iso -/

/-- Python indexing with one level of negative-index wraparound. -/
def pyAt (s : List Char) (i : ℤ) : Char :=
  if 0 ≤ i then s.getD i.toNat nullCh
  else s.getD (s.length - (-i).toNat) nullCh

/-- The static date-layout table ISO_DATE_FORMAT_INFO of iso_parser.py:
key (stripped length, dash count), value (year digit count, month field
offset or 0, day field offset, day field width, dash offsets). -/
def isoDateFormatInfo (k : ℤ × ℕ) : Option (ℕ × ℕ × ℕ × ℕ × List ℕ) :=
  if k = (10, 2) then some (4, 5, 8, 2, [4, 7])
  else if k = (8, 1) then some (4, 0, 5, 3, [4])
  else if k = (8, 2) then some (2, 3, 6, 2, [2, 5])
  else if k = (6, 1) then some (2, 0, 3, 3, [2])
  else if k = (8, 0) then some (4, 4, 6, 2, [])
  else if k = (7, 0) then some (4, 0, 4, 3, [])
  else if k = (6, 0) then some (2, 2, 4, 2, [])
  else if k = (5, 0) then some (2, 0, 2, 3, [])
  else none

/-- The classification key that day_from_iso computes from the first
record of the batch: (kints - w0, number of dashes). -/
def dayKey (strip : Bool) (e0 : List Char) : ℤ × ℕ :=
  let first := stripTrailingNulls e0
  let lfirst : ℤ := first.length
  let w01 := if strip then countWhite first else (0, 0)
  let w0 : ℤ := w01.1
  let w1 : ℤ := w01.2
  let lstripped := lfirst - w0 - w1
  let kdot : ℤ := max 0 (pyFind first '.')
  let kend := w0 + lstripped
  let kints := if kdot = 0 then kend else kdot
  (kints - w0, first.count '-')

/-- The extraction, optional strict-syntax verification, and calendar
conversion part of day_from_iso (iso_parser.py lines 106-169), given the
classified layout (y1, m0, d0, dlen, dashes) and the padding geometry of
the first record. -/
def dayExtract (A : CalendarAdapter) (validate sx proleptic : Bool)
    (elems : List (List Char)) (y1 m0 d0 dlen : ℕ) (dashes : List ℕ)
    (w0 w1 w2 kdot kend lfirst : ℤ) : Except String (List ℚ) := do
  let flen := kend - kdot - 1
  let fpresent := decide (kdot ≠ 0) && decide (flen ≠ 0)
  let ys ← elems.mapM (fun e => pythonInt (sliceZ e w0 (y1 : ℤ)))
  let ds ← elems.mapM (fun e => pythonInt (sliceZ e (w0 + d0) (dlen : ℤ)))
  let ms ← if m0 ≠ 0 then elems.mapM (fun e => pythonInt (sliceZ e (w0 + m0) 2))
           else pure (elems.map (fun _ => (0 : ℤ)))
  let fs ← if fpresent then elems.mapM (fun e => pythonInt (sliceZ e (kdot + 1) flen))
           else pure (elems.map (fun _ => (0 : ℤ)))
  if sx && (match dashes.get? 0 with
            | some k => elems.any (fun e => !(sliceZ e (w0 + k) 1 = ['-']))
            | none => false) then
    .error "inconsistent dashes in ISO date"
  else if sx && (match dashes.get? 1 with
            | some k => elems.any (fun e => !(sliceZ e (w0 + k) 1 = ['-']))
            | none => false) then
    .error "inconsistent dashes in ISO date"
  else if sx && decide (w0 ≠ 0) &&
      elems.any (fun e => !(sliceZ e 0 w0 = List.replicate w0.toNat ' ')) then
    .error "inconsistent white space in ISO date"
  else if sx && decide (w1 ≠ 0) &&
      elems.any (fun e => !(sliceZ e kend w1 = List.replicate w1.toNat ' ')) then
    .error "inconsistent white space in ISO date"
  else if sx && decide (w2 ≠ 0) &&
      elems.any (fun e => !(sliceZ e lfirst 1 = [nullCh])) then
    .error "inconsistent null termination in ISO date"
  else if sx && elems.any (fun e => (sliceZ e w0 (kend - w0)).any (fun c => c = ' ')) then
    .error "invalid blank character in ISO date"
  else if sx && (elems.any (fun e => (sliceZ e w0 (y1 : ℤ)).any (fun c => c = '-')) ||
      elems.any (fun e => (sliceZ e (w0 + d0) (dlen : ℤ)).any (fun c => c = '-')) ||
      (decide (m0 ≠ 0) &&
        elems.any (fun e => (sliceZ e (w0 + m0) 2).any (fun c => c = '-'))) ||
      (fpresent &&
        elems.any (fun e => (sliceZ e (kdot + 1) flen).any (fun c => c = '-')))) then
    .error "invalid negative value in ISO date"
  else
    let days ← (ys.zip (ms.zip ds)).mapM (fun p =>
      if m0 ≠ 0 then callDayFromYmd A validate proleptic p.1 p.2.1 p.2.2
      else callDayFromYd A validate proleptic p.1 p.2.2)
    if kdot ≠ 0 then
      .ok ((days.zip fs).map (fun p => (p.1 : ℚ) + (p.2 : ℚ) / (10 : ℚ) ^ flen))
    else
      .ok (days.map (fun d => (d : ℚ)))

/-- day_from_iso of iso_parser.py: classify the first record against the
static layout table, then extract and convert every record of the
batch. -/
def dayFromIso (A : CalendarAdapter) (validate sx strip proleptic : Bool)
    (elems : List (List Char)) : Except String (List ℚ) :=
  match elems with
  | [] => .error "empty input"
  | e0 :: _ =>
    let itemsize : ℤ := e0.length
    let first := stripTrailingNulls e0
    let lfirst : ℤ := first.length
    let w2 := itemsize - lfirst
    let w01 := if strip then countWhite first else (0, 0)
    let w0 : ℤ := w01.1
    let w1 : ℤ := w01.2
    let lstripped := lfirst - w0 - w1
    let kdot : ℤ := max 0 (pyFind first '.')
    let kend := w0 + lstripped
    match isoDateFormatInfo (dayKey strip e0) with
    | none => .error ("unrecognized ISO date format: \"" ++ String.mk first ++ "\"")
    | some (y1, m0, d0, dlen, dashes) =>
      dayExtract A validate sx proleptic elems y1 m0 d0 dlen dashes
        w0 w1 w2 kdot kend lfirst

/-- The extraction, optional strict-syntax verification and hms
conversion part of sec_from_iso (iso_parser.py lines 253-314), given
the inferred field start offsets khms (all fields two characters wide),
the colon offsets, and the padding geometry of the first record. -/
def secExtract (validate leapsecs sx : Bool) (elems : List (List Char))
    (khms kcolons : List ℤ) (kdot kend w0 w1 w2 wz lfirst : ℤ) :
    Except String (List ℚ) := do
  let flen := kend - kdot - 1
  let nf := khms.length
  let fpresent := decide (kdot ≠ 0) && decide (flen ≠ 0)
  if nf = 0 then
    .error "missing field h"
  else
    let hs ← elems.mapM (fun e => pythonInt (sliceZ e (khms.getD 0 0) 2))
    let ms ← if 2 ≤ nf then elems.mapM (fun e => pythonInt (sliceZ e (khms.getD 1 0) 2))
             else pure (elems.map (fun _ => (0 : ℤ)))
    let ss ← if 3 ≤ nf then elems.mapM (fun e => pythonInt (sliceZ e (khms.getD 2 0) 2))
             else pure (elems.map (fun _ => (0 : ℤ)))
    let fs ← if fpresent then elems.mapM (fun e => pythonInt (sliceZ e (kdot + 1) flen))
             else pure (elems.map (fun _ => (0 : ℤ)))
    if sx && decide (w0 ≠ 0) &&
        elems.any (fun e => !(sliceZ e 0 w0 = List.replicate w0.toNat ' ')) then
      .error "inconsistent white space in ISO time"
    else if sx && (match kcolons.get? 0 with
              | some k => elems.any (fun e => !(sliceZ e k 1 = [':']))
              | none => false) then
      .error "inconsistent colons in ISO time"
    else if sx && (match kcolons.get? 1 with
              | some k => elems.any (fun e => !(sliceZ e k 1 = [':']))
              | none => false) then
      .error "inconsistent colons in ISO time"
    else if sx && decide (kdot ≠ 0) &&
        elems.any (fun e => !(sliceZ e kdot 1 = ['.'])) then
      .error "inconsistent decimal points in ISO time"
    else if sx && decide (wz ≠ 0) &&
        elems.any (fun e => !(sliceZ e kend 1 = ['Z'])) then
      .error "inconsistent Z usage in ISO time"
    else if sx && decide (w1 ≠ 0) &&
        elems.any (fun e => !(sliceZ e (kend + wz) w1 = List.replicate w1.toNat ' ')) then
      .error "inconsistent white space in ISO time"
    else if sx && decide (w2 ≠ 0) &&
        elems.any (fun e => !(sliceZ e lfirst 1 = [nullCh])) then
      .error "inconsistent null termination in ISO time"
    else if sx && elems.any (fun e =>
        (sliceZ e w0 (kend - w0)).any (fun c => c = ' ' || c = '-')) then
      .error "invalid blank character in ISO time"
    else
      let triples := hs.zip (ms.zip (ss.zip fs))
      let vals : List (ℚ × ℚ × ℚ) := triples.map (fun t =>
        let h : ℚ := (t.1 : ℚ)
        let m : ℚ := (t.2.1 : ℚ)
        let s : ℚ := (t.2.2.1 : ℚ)
        let fq : ℚ := (t.2.2.2 : ℚ) / (10 : ℚ) ^ flen
        if fpresent then
          if 3 ≤ nf then (h, m, s + fq)
          else if 2 ≤ nf then (h, m + fq, s)
          else (h + fq, m, s)
        else (h, m, s))
      vals.mapM (fun v => secFromHms validate leapsecs v.1 v.2.1 v.2.2)

/-- Padding-and-zone geometry that sec_from_iso derives from the first
record of the batch (iso_parser.py lines 197-218): stripped text,
blank padding widths, null padding, Z suffix flag and end offset. -/
structure SecGeometry where
  first : List Char
  w0 : ℤ
  w1 : ℤ
  w2 : ℤ
  wz : ℤ
  kend : ℤ
  lfirst : ℤ

/-- The geometry computation of sec_from_iso (iso_parser.py lines
197-218). -/
def secGeometry (strip : Bool) (e0 : List Char) : SecGeometry :=
  let itemsize : ℤ := e0.length
  let first := stripTrailingNulls e0
  let lfirst : ℤ := first.length
  let w2 := itemsize - lfirst
  let w01 := if strip then countWhite first else (0, 0)
  let w0 : ℤ := w01.1
  let w1 : ℤ := w01.2
  let lstripped0 := lfirst - w0 - w1
  let wz : ℤ := if pyAt first (w0 + lstripped0 - 1) = 'Z' then 1 else 0
  { first := first, w0 := w0, w1 := w1, w2 := w2, wz := wz,
    kend := w0 + (lstripped0 - wz), lfirst := lfirst }

/-- The time-layout inference of sec_from_iso (iso_parser.py lines
220-251): locate colons and the decimal point in the first record and
derive the field start offsets khms (all fields two characters wide),
either from the colon positions or by dividing the colonless width
into two-character groups, at most three. -/
def secLayout (first : List Char) (w0 kend : ℤ) :
    Except String (List ℤ × List ℤ × ℤ) :=
  let kcolons := idxsOf first ':'
  if 2 < kcolons.length then
    .error ("unrecognized ISO time format; too many colons: \"" ++
            String.mk first ++ "\"")
  else
    let kdots := idxsOf first '.'
    if 1 < kdots.length then
      .error ("unrecognized ISO time format; too many decimals: \"" ++
              String.mk first ++ "\"")
    else
      let kdot : ℤ := kdots.headD 0
      let kints := if kdot = 0 then kend else kdot
      if kcolons.length ≠ 0 then
        let kcolonsE : List ℤ := (w0 - 1) :: kcolons
        let khms := kcolonsE.map (· + 1)
        let khms1 := kcolons ++ [kints]
        let widths := List.zipWith (fun a b => a - b) khms1 khms
        if widths.any (fun w => !(w = 2)) then
          .error ("invalid field width in ISO time: \"" ++ String.mk first ++ "\"")
        else
          .ok (khms, kcolons, kdot)
      else
        let width := kints - w0
        let fields := Int.fdiv width 2
        if 3 < fields ∨ ¬(width = fields * 2) then
          .error ("invalid text width in ISO time format: \"" ++
                  String.mk first ++ "\"")
        else
          .ok ((List.range fields.toNat).map (fun i => w0 + 2 * (i : ℤ)), [], kdot)

/-- sec_from_iso of iso_parser.py: infer the time layout from colon and
dot positions in the first record, then extract every record of the
batch. -/
def secFromIso (validate leapsecs strip sx : Bool)
    (elems : List (List Char)) : Except String (List ℚ) :=
  match elems with
  | [] => .error "empty input"
  | e0 :: _ =>
    let G := secGeometry strip e0
    match secLayout G.first G.w0 G.kend with
    | .error e => .error e
    | .ok (khms, kcolons, kdot) =>
      secExtract validate leapsecs sx elems khms kcolons
        kdot G.kend G.w0 G.w1 G.w2 G.wz G.lfirst

/-- day_sec_from_iso of iso_parser.py: locate the date/time separator in
the first record; with no separator the whole batch is a date batch and
the seconds component is the scalar integer 0 (the left summand);
otherwise the date and time column slices are parsed separately. -/
def daySecFromIso (A : CalendarAdapter) (validate sx strip proleptic : Bool)
    (elems : List (List Char)) : Except String (List ℚ × (ℚ ⊕ List ℚ)) := do
  match elems with
  | [] => .error "empty input"
  | e0 :: _ =>
    let first := stripTrailingNulls e0
    let lfirst : ℤ := first.length
    let isepT := pyFind first 'T'
    let ws := countWhite first
    let isepB0 := pyFindFrom first ' ' ws.1
    let isepB := if isepB0 = lfirst - (ws.2 : ℤ) then -1 else isepB0
    let csep : Char := if isepT = -1 then ' ' else 'T'
    let isep : ℤ := if isepT = -1 then isepB else isepT
    if isep = -1 then
      (dayFromIso A validate false strip false elems).map (fun ds => (ds, Sum.inl 0))
    else
      let dateSlices := elems.map (fun e => sliceZ e 0 isep)
      let timeSlices := elems.map (fun e => sliceZ e (isep + 1) (lfirst - isep - 1))
      let days ← dayFromIso A validate sx strip proleptic dateSlices
      let secs ← secFromIso validate true strip sx timeSlices
      if sx && (elems.any (fun e => !(sliceZ e isep 1 = [csep]))) then
        .error "invalid ISO date-time punctuation"
      else if validate && ((days.zip secs).any (fun p => A.seconds_on_day p.1 ≤ p.2)) then
        .error "seconds value is outside allowed range"
      else
        .ok (days, Sum.inr secs)

/-! ## Encoder: caller-supplied buffer path -/

/-- The DIGITS1 lookup table of formatter.py: strings for 0-9. -/
def DIGITS1 : List (List Char) := (List.range 10).map (natDigits 1)

/-- The DIGITS2 lookup table of formatter.py: two-character strings for
0-99. -/
def DIGITS2 : List (List Char) := (List.range 100).map (natDigits 2)

/-- The DIGITS3 lookup table of formatter.py: three-character strings
for 0-366. -/
def DIGITS3 : List (List Char) := (List.range 367).map (natDigits 3)

/-- NumPy integer-array indexing into a lookup table: negative indices
wrap around once, out-of-range indices raise. -/
def npGather (tbl : List (List Char)) (i : ℤ) : Except String (List Char) :=
  if 0 ≤ i ∧ i < tbl.length then .ok (tbl.getD i.toNat [])
  else if -(tbl.length : ℤ) ≤ i ∧ i < 0 then
    .ok (tbl.getD (tbl.length - (-i).toNat) [])
  else .error "index out of range"

/-- A caller-owned fixed-stride text buffer: a one-dimensional array of
records, each of exactly itemsize characters. -/
structure CharBuffer where
  itemsize : ℕ
  elems : List (List Char)

/-- One date record of the format_day array path, rendered through the
digit lookup tables (formatter.py lines 194-207): a four-digit year is
split into a hundreds group and a tens group, each resolved from
DIGITS2. -/
def dayRecord (ydigits dlen : ℕ) (order dash : List Char) (y m d : ℤ) :
    Except String (List Char) := do
  let segs ← order.mapM (fun c =>
    if c = 'Y' then do
      let hi ← if ydigits = 4 then npGather DIGITS2 (Int.fdiv y 100) else pure []
      let lo ← npGather DIGITS2 (y % 100)
      pure (hi ++ lo)
    else if c = 'M' then npGather DIGITS2 m
    else if dlen = 2 then npGather DIGITS2 d
    else npGather DIGITS3 d)
  pure (joinFields dash segs)

/-- The per-record width that format_day synthesizes for integer day
input (no decimal point): lstring of formatter.py lines 111-152. -/
def dayRecordWidth (orderLen ydigits dashLen : ℕ) : ℕ :=
  (if orderLen = 2 then ydigits + 3 else ydigits + 4) + (orderLen - 1) * dashLen

/-- format_day of formatter.py for a one-dimensional integer day batch
written into a caller-supplied buffer (lines 178-219, text kind): the
buffer shape and itemsize are validated, then the WHOLE buffer is
filled with nulls and the fields of the first days.length records are
written; a record's bytes beyond the synthesized width and the buffer
elements beyond the batch remain null. -/
def formatDayBuffer (A : CalendarAdapter) (days : List ℤ) (order : String)
    (ydigits : ℕ) (dash : String) (proleptic : Bool) (buffer : CharBuffer) :
    Except String CharBuffer := do
  if !(order ∈ ["YMD", "MDY", "DMY", "YD", "DY"]) then
    .error ("unrecognized date format order: " ++ order)
  else if !(ydigits = 2 || ydigits = 4) then
    .error "ydigits must equal 2 or 4"
  else if buffer.elems.length < days.length then
    .error "buffer shape is too small for the date array"
  else
    let dlen : ℕ := if order.length = 2 then 3 else 2
    let lstring := dayRecordWidth order.length ydigits dash.length
    if buffer.itemsize < lstring then
      .error "buffer itemsize is too small for the date format"
    else
      let records ← days.mapM (fun day =>
        let ymd := A.ymd_from_day proleptic day
        let yd := A.yd_from_day proleptic day
        let y : ℤ := if order.length = 3 then ymd.1 else yd.1
        let m : ℤ := if order.length = 3 then ymd.2.1 else 0
        let d : ℤ := if order.length = 3 then ymd.2.2 else yd.2
        dayRecord ydigits dlen order.toList dash.toList y m d)
      let written := records.map (fun r =>
        r ++ List.replicate (buffer.itemsize - r.length) nullCh)
      let blanked := (buffer.elems.drop days.length).map (fun _ =>
        List.replicate buffer.itemsize nullCh)
      .ok ⟨buffer.itemsize, written ++ blanked⟩

/-- One time record of the format_sec array path (formatter.py lines
363-382), rendered through the digit lookup tables; the fraction digits
come from the iterated multiply-by-10 loop. -/
def secRecord (digits : Option ℤ) (colon suffix : List Char) (sec : ℚ) :
    Except String (List Char) := do
  let hms := hmsFromSec sec
  let hasDot := (match digits with | some d => decide (0 ≤ d) | none => false)
  let dU : ℕ := (match digits with | some d => d.toNat | none => 0)
  let secR := if hasDot then secRound dU sec else sec
  let intSec : ℤ := pyInt secR
  let frac : ℚ := secR - intSec
  let h ← npGather DIGITS2 hms.1
  let m ← npGather DIGITS2 hms.2.1
  let s ← npGather DIGITS2 (pyInt hms.2.2)
  let fdigits ← (fracDigitsLoop frac (if hasDot then dU else 0)).mapM
    (fun f => npGather DIGITS1 f)
  let dotPart : List Char := if hasDot then '.' :: fdigits.flatten else []
  pure (h ++ colon ++ m ++ colon ++ s ++ dotPart ++ suffix)

/-- The per-record width that format_sec synthesizes: lstring of
formatter.py lines 298-330. -/
def secRecordWidth (digits : Option ℤ) (colonLen suffixLen : ℕ) : ℕ :=
  6 + 2 * colonLen +
  (match digits with
   | some d => if 0 ≤ d then 1 + d.toNat else 0
   | none => 0) + suffixLen

/-- format_sec of formatter.py for a one-dimensional batch written into
a caller-supplied buffer (lines 347-384, text kind): after the shape
and itemsize checks the WHOLE buffer is filled with nulls before the
fields are written. -/
def formatSecBuffer (secs : List ℚ) (digits : Option ℤ)
    (colon suffix : String) (buffer : CharBuffer) :
    Except String CharBuffer := do
  if buffer.elems.length < secs.length then
    .error "buffer shape is too small for the time array"
  else
    let lstring := secRecordWidth digits colon.length suffix.length
    if buffer.itemsize < lstring then
      .error "buffer itemsize is too small for the ISO time format"
    else
      let records ← secs.mapM (secRecord digits colon.toList suffix.toList)
      let written := records.map (fun r =>
        r ++ List.replicate (buffer.itemsize - r.length) nullCh)
      let blanked := (buffer.elems.drop secs.length).map (fun _ =>
        List.replicate buffer.itemsize nullCh)
      .ok ⟨buffer.itemsize, written ++ blanked⟩

/-! ## Concrete adapters used by the witnesses -/

/-- A small concrete calendar adapter: day 0 is 2000-01-01 and days
0 through 30 stay inside January 2000; every day is 86400 seconds
long. -/
def testAdapter : CalendarAdapter where
  ymd_from_day := fun _ d => (2000, 1, 1 + d)
  day_from_ymd := fun _ _ _ d => d - 1
  valid_ymd := fun _ y m d =>
    y == 2000 && m == 1 && decide (1 ≤ d) && decide (d ≤ 31)
  yd_from_day := fun _ d => (2000, 1 + d)
  day_from_yd := fun _ _ d => d - 1
  valid_yd := fun _ y d => y == 2000 && decide (1 ≤ d) && decide (d ≤ 366)
  seconds_on_day := fun _ => 86400

/-- A concrete adapter whose calendar sits in year 2099, for the
two-digit-year wraparound witness. -/
def adapter2099 : CalendarAdapter where
  ymd_from_day := fun _ d => (2099, 12, 1 + d)
  day_from_ymd := fun _ y _ d => if y == 2099 then d - 1 else d + 99
  valid_ymd := fun _ _ m d =>
    m == 12 && decide (1 ≤ d) && decide (d ≤ 31)
  yd_from_day := fun _ d => (2099, 335 + d)
  day_from_yd := fun _ _ d => d - 335
  valid_yd := fun _ _ d => decide (1 ≤ d) && decide (d ≤ 365)
  seconds_on_day := fun _ => 86400

/-! ## Lemmas about digit strings -/

theorem natDigits_length (w n : ℕ) : (natDigits w n).length = w := by
  induction w generalizing n with
  | zero => rfl
  | succ w ih => simp [natDigits, ih]

theorem natDigits_ne_nil {w n : ℕ} (hw : 0 < w) : natDigits w n ≠ [] := by
  intro h
  have := natDigits_length w n
  rw [h] at this
  simp at this
  omega

theorem isDigitCh_digitChar {k : ℕ} (h : k < 10) :
    isDigitCh (digitChar k) = true := by
  interval_cases k <;> decide

theorem digitVal_digitChar {k : ℕ} (h : k < 10) : digitVal (digitChar k) = k := by
  interval_cases k <;> decide

theorem mem_natDigits {c : Char} {w n : ℕ} (h : c ∈ natDigits w n) :
    isDigitCh c = true := by
  induction w generalizing n with
  | zero => cases h
  | succ w ih =>
    simp only [natDigits, List.mem_cons] at h
    rcases h with rfl | h
    · exact isDigitCh_digitChar (Nat.mod_lt _ (by norm_num))
    · exact ih h

theorem isDigitCh_ne {c x : Char} (h : isDigitCh c = true)
    (hx : isDigitCh x = false) : c ≠ x := by
  rintro rfl
  rw [h] at hx
  cases hx

theorem digit_ne_blank {c : Char} (h : isDigitCh c = true) : c ≠ ' ' :=
  isDigitCh_ne h (show isDigitCh ' ' = false by decide)

theorem digit_ne_null {c : Char} (h : isDigitCh c = true) : c ≠ nullCh :=
  isDigitCh_ne h (show isDigitCh nullCh = false by decide)

theorem digit_ne_minus {c : Char} (h : isDigitCh c = true) : c ≠ '-' :=
  isDigitCh_ne h (show isDigitCh '-' = false by decide)

theorem digit_ne_plus {c : Char} (h : isDigitCh c = true) : c ≠ '+' :=
  isDigitCh_ne h (show isDigitCh '+' = false by decide)

theorem foldl_natDigits (w : ℕ) :
    ∀ (n a : ℕ), (natDigits w n).foldl (fun a c => 10 * a + digitVal c) a =
      a * 10 ^ w + n % 10 ^ w := by
  induction w with
  | zero =>
    intro n a
    simp [natDigits, Nat.mod_one]
  | succ w ih =>
    intro n a
    simp only [natDigits, List.foldl_cons]
    rw [ih, digitVal_digitChar (Nat.mod_lt _ (by norm_num)), Nat.mod_pow_succ]
    ring

theorem parseDigits_natDigits {w n : ℕ} (h : n < 10 ^ w) :
    parseDigits (natDigits w n) = n := by
  unfold parseDigits
  rw [foldl_natDigits]
  simp [Nat.mod_eq_of_lt h]

theorem dropWhile_eq_self {p : Char → Bool} {s : List Char}
    (h : ∀ c ∈ s, p c = false) : s.dropWhile p = s := by
  cases s with
  | nil => rfl
  | cons c cs => simp [List.dropWhile_cons, h c (List.mem_cons_self c cs)]

theorem dropTrailing_eq_self {p : Char → Bool} {s : List Char}
    (h : ∀ c ∈ s, p c = false) : dropTrailing p s = s := by
  unfold dropTrailing
  rw [dropWhile_eq_self (fun c hc => h c (List.mem_reverse.mp hc)),
      List.reverse_reverse]

theorem stripTrailingNulls_eq_self {s : List Char}
    (h : ∀ c ∈ s, c ≠ nullCh) : stripTrailingNulls s = s := by
  unfold stripTrailingNulls
  exact dropTrailing_eq_self (fun c hc => by simp [h c hc])

theorem pythonInt_digits {s : List Char} (hne : s ≠ [])
    (h : ∀ c ∈ s, isDigitCh c = true) :
    pythonInt s = .ok (parseDigits s : ℤ) := by
  unfold pythonInt
  have hnull : stripTrailingNulls s = s :=
    stripTrailingNulls_eq_self (fun c hc => digit_ne_null (h c hc))
  have hsp : ∀ c ∈ s, (decide (c = ' ')) = false := fun c hc => by
    simp [digit_ne_blank (h c hc)]
  rw [hnull, dropWhile_eq_self hsp, dropTrailing_eq_self hsp]
  cases s with
  | nil => exact absurd rfl hne
  | cons c cs =>
    have hc := h c (List.mem_cons_self c cs)
    simp only [pythonIntCore]
    rw [if_neg (digit_ne_minus hc), if_neg (digit_ne_plus hc), if_pos]
    exact List.all_eq_true.mpr h

theorem pythonInt_natDigits {w n : ℕ} (hw : 0 < w) (h : n < 10 ^ w) :
    pythonInt (natDigits w n) = .ok (n : ℤ) := by
  rw [pythonInt_digits (natDigits_ne_nil hw) (fun c hc => mem_natDigits hc),
      parseDigits_natDigits h]

theorem toNat_lt_pow {w : ℕ} {i : ℤ} (h0 : 0 ≤ i) (h : i < 10 ^ w) :
    i.toNat < 10 ^ w := by
  have : (i.toNat : ℤ) < ((10 ^ w : ℕ) : ℤ) := by
    rw [Int.toNat_of_nonneg h0]
    push_cast
    exact h
  exact_mod_cast this

theorem pyPadInt_eq_natDigits {w : ℕ} {i : ℤ} (h0 : 0 ≤ i) (h : i < 10 ^ w) :
    pyPadInt w i = natDigits w i.toNat := by
  unfold pyPadInt pyPadNat
  rw [if_neg (not_lt.mpr h0), if_pos (toNat_lt_pow h0 h)]

theorem pyPadInt_length {w : ℕ} {i : ℤ} (h0 : 0 ≤ i) (h : i < 10 ^ w) :
    (pyPadInt w i).length = w := by
  rw [pyPadInt_eq_natDigits h0 h, natDigits_length]

theorem mem_pyPadInt {c : Char} {w : ℕ} {i : ℤ} (h0 : 0 ≤ i) (h : i < 10 ^ w)
    (hc : c ∈ pyPadInt w i) : isDigitCh c = true := by
  rw [pyPadInt_eq_natDigits h0 h] at hc
  exact mem_natDigits hc

theorem pythonInt_pyPadInt {w : ℕ} {i : ℤ} (hw : 0 < w) (h0 : 0 ≤ i)
    (h : i < 10 ^ w) : pythonInt (pyPadInt w i) = .ok i := by
  rw [pyPadInt_eq_natDigits h0 h, pythonInt_natDigits hw (toNat_lt_pow h0 h),
      Int.toNat_of_nonneg h0]

/-! ## Lemmas about list searching and slicing -/

theorem idxFrom_eq_none {p : Char → Bool} {a : List Char}
    (h : ∀ x ∈ a, p x = false) : ∀ k, idxFrom p a k = none := by
  induction a with
  | nil => intro k; rfl
  | cons x xs ih =>
    intro k
    simp only [idxFrom, h x (List.mem_cons_self x xs), if_false]
    exact ih (fun y hy => h y (List.mem_cons_of_mem x hy)) (k + 1)

theorem idxFrom_cons (p : Char → Bool) (x : Char) (xs : List Char) (k : ℤ) :
    idxFrom p (x :: xs) k = if p x then some k else idxFrom p xs (k + 1) :=
  rfl

theorem idxsFrom_cons (c x : Char) (xs : List Char) (k : ℤ) :
    idxsFrom c (x :: xs) k =
      if x = c then k :: idxsFrom c xs (k + 1) else idxsFrom c xs (k + 1) :=
  rfl

theorem idxFrom_append_left_none {p : Char → Bool} {a : List Char}
    (h : ∀ x ∈ a, p x = false) (b : List Char) :
    ∀ k, idxFrom p (a ++ b) k = idxFrom p b (k + a.length) := by
  induction a with
  | nil => intro k; simp
  | cons x xs ih =>
    intro k
    rw [List.cons_append, idxFrom_cons, h x (List.mem_cons_self x xs)]
    simp only [Bool.false_eq_true, if_false]
    rw [ih (fun y hy => h y (List.mem_cons_of_mem x hy)) (k + 1)]
    congr 1
    simp only [List.length_cons]
    push_cast
    ring

theorem idxFrom_cons_true {p : Char → Bool} {c : Char} (cs : List Char)
    (h : p c = true) (k : ℤ) : idxFrom p (c :: cs) k = some k := by
  simp [idxFrom, h]

theorem idxsFrom_eq_nil {c : Char} {a : List Char}
    (h : ∀ x ∈ a, x ≠ c) : ∀ k, idxsFrom c a k = [] := by
  induction a with
  | nil => intro k; rfl
  | cons x xs ih =>
    intro k
    simp only [idxsFrom, if_neg (h x (List.mem_cons_self x xs))]
    exact ih (fun y hy => h y (List.mem_cons_of_mem x hy)) (k + 1)

theorem idxsFrom_append (c : Char) (a b : List Char) :
    ∀ k, idxsFrom c (a ++ b) k =
      idxsFrom c a k ++ idxsFrom c b (k + a.length) := by
  induction a with
  | nil => intro k; simp [idxsFrom]
  | cons x xs ih =>
    intro k
    have harith : k + 1 + (xs.length : ℤ) = k + (((x :: xs).length : ℤ)) := by
      simp only [List.length_cons]
      push_cast
      ring
    rw [List.cons_append, idxsFrom_cons, idxsFrom_cons]
    by_cases hx : x = c
    · rw [if_pos hx, if_pos hx, ih (k + 1), harith, List.cons_append]
    · rw [if_neg hx, if_neg hx, ih (k + 1), harith]

theorem slice_extract (pre mid post : List Char) {off w : ℕ}
    (hoff : pre.length = off) (hw : mid.length = w) :
    ((pre ++ mid ++ post).drop off).take w = mid := by
  subst hoff hw
  rw [List.append_assoc, List.drop_left, List.take_left]

theorem sliceZ_extract (pre mid post : List Char) {off w : ℤ}
    (hoff : (pre.length : ℤ) = off) (hw : (mid.length : ℤ) = w) :
    sliceZ (pre ++ mid ++ post) off w = mid := by
  unfold sliceZ
  have h1 : off.toNat = pre.length := by omega
  have h2 : w.toNat = mid.length := by omega
  rw [h1, h2, List.append_assoc, List.drop_left, List.take_left]

theorem sliceZ_extract_end (pre mid : List Char) {off w : ℤ}
    (hoff : (pre.length : ℤ) = off) (hw : (mid.length : ℤ) = w) :
    sliceZ (pre ++ mid) off w = mid := by
  have := sliceZ_extract pre mid [] hoff hw
  rwa [List.append_nil] at this

/-! ## Floor arithmetic for the rounding bias -/

theorem floor_div_nat_q (x : ℚ) (n : ℕ) (hn : 0 < n) :
    ⌊x / (n : ℚ)⌋ = ⌊x⌋ / (n : ℤ) := by
  have hnz : ((n : ℤ)) ≠ 0 := by exact_mod_cast hn.ne'
  have hmod := Int.ediv_add_emod ⌊x⌋ (n : ℤ)
  have hr0 : (0 : ℤ) ≤ ⌊x⌋ % n := Int.emod_nonneg _ hnz
  have hrlt : ⌊x⌋ % n < n := Int.emod_lt_of_pos _ (by exact_mod_cast hn)
  have hfl : ((⌊x⌋ : ℤ) : ℚ) ≤ x := Int.floor_le x
  have hfu : x < (⌊x⌋ : ℚ) + 1 := Int.lt_floor_add_one x
  have hnq : (0 : ℚ) < (n : ℚ) := by exact_mod_cast hn
  rw [Int.floor_eq_iff]
  have hmodq : (n : ℚ) * ((⌊x⌋ / n : ℤ) : ℚ) + ((⌊x⌋ % n : ℤ) : ℚ) = (⌊x⌋ : ℚ) := by
    exact_mod_cast congrArg (fun z : ℤ => (z : ℚ)) hmod
  have hr0q : (0 : ℚ) ≤ ((⌊x⌋ % n : ℤ) : ℚ) := by exact_mod_cast hr0
  have hrlt1 : ((⌊x⌋ % n : ℤ) : ℚ) + 1 ≤ (n : ℚ) := by exact_mod_cast hrlt
  constructor
  · rw [le_div_iff₀ hnq]
    nlinarith
  · rw [div_lt_iff₀ hnq]
    nlinarith

theorem floor_int_bias_div (m : ℤ) (n : ℕ) (hn : 0 < n) :
    ⌊((m : ℚ) + 1 / 10) / (n : ℚ)⌋ = m / (n : ℤ) := by
  rw [floor_div_nat_q _ _ hn]
  congr 1
  rw [show ((m : ℚ) + 1 / 10) = ((m : ℤ) : ℚ) + (1 / 10 : ℚ) from rfl,
      Int.floor_int_add]
  norm_num

theorem bias_frac_split (m : ℤ) (d : ℕ) :
    ((m : ℚ) + 1 / 10) / 10 ^ d - ((m / 10 ^ d : ℤ) : ℚ) =
      (((m % 10 ^ d : ℤ) : ℚ) + 1 / 10) / 10 ^ d := by
  have hmod := Int.ediv_add_emod m (10 ^ d)
  have hmodq : ((10 : ℚ)) ^ d * ((m / 10 ^ d : ℤ) : ℚ) + ((m % 10 ^ d : ℤ) : ℚ)
      = (m : ℚ) := by
    exact_mod_cast congrArg (fun z : ℤ => (z : ℚ)) hmod
  have hpow : ((10 : ℚ)) ^ d ≠ 0 := by positivity
  field_simp
  linarith

theorem fracDigitsLoop_digits (d : ℕ) :
    ∀ m : ℤ, 0 ≤ m → m < 10 ^ d →
      fracDigitsLoop (((m : ℚ) + 1 / 10) / 10 ^ d) d = decimalDigitsZ m d := by
  induction d with
  | zero => intro m _ _; rfl
  | succ d ih =>
    intro m h0 h1
    have hpow9 : (0 : ℕ) < 10 ^ d := by positivity
    have hmul : (((m : ℚ) + 1 / 10) / 10 ^ (d + 1)) * 10 =
        ((m : ℚ) + 1 / 10) / 10 ^ d := by
      have : ((10 : ℚ)) ^ (d + 1) = 10 ^ d * 10 := by ring
      rw [this]
      have hp : ((10 : ℚ)) ^ d ≠ 0 := by positivity
      field_simp
      ring
    have hdig : ⌊((m : ℚ) + 1 / 10) / 10 ^ d⌋ = m / 10 ^ d := by
      have := floor_int_bias_div m (10 ^ d) hpow9
      push_cast at this
      exact this
    have hq0 : (0 : ℤ) ≤ m / 10 ^ d := Int.ediv_nonneg h0 (by positivity)
    have hqlt : m / 10 ^ d < 10 := by
      apply Int.ediv_lt_of_lt_mul (by positivity)
      calc m < 10 ^ (d + 1) := h1
        _ = 10 * 10 ^ d := by ring
    show (⌊(((m : ℚ) + 1 / 10) / 10 ^ (d + 1)) * 10⌋ :: _) = _
    rw [hmul, hdig]
    show _ = (m / 10 ^ d % 10 :: decimalDigitsZ (m % 10 ^ d) d)
    rw [Int.emod_eq_of_lt hq0 hqlt]
    congr 1
    rw [bias_frac_split m d]
    exact ih (m % 10 ^ d) (Int.emod_nonneg _ (by positivity))
      (Int.emod_lt_of_pos _ (by positivity))

theorem dayRound_eq (d : ℕ) (v : ℚ) :
    dayRound d v = ((⌊v * 10 ^ d + 1 / 2⌋ : ℚ) + 1 / 10) / 10 ^ d := rfl

theorem pyInt_dayRound {d : ℕ} {v : ℚ} (hv : 0 ≤ v) :
    pyInt (dayRound d v) = ⌊v * 10 ^ d + 1 / 2⌋ / 10 ^ d := by
  have hn0 : (0 : ℤ) ≤ ⌊v * 10 ^ d + 1 / 2⌋ :=
    Int.floor_nonneg.mpr (by positivity)
  have hr0 : (0 : ℚ) ≤ dayRound d v := by
    rw [dayRound_eq]
    have : (0 : ℚ) ≤ (⌊v * 10 ^ d + 1 / 2⌋ : ℚ) := by exact_mod_cast hn0
    positivity
  unfold pyInt
  rw [if_neg (not_lt.mpr hr0), dayRound_eq]
  have := floor_int_bias_div ⌊v * 10 ^ d + 1 / 2⌋ (10 ^ d) (by positivity)
  push_cast at this ⊢
  exact this

/-- Claim C6: the encoder splits a value into integer and fractional
parts with the truncation-with-bias rule
((value * scale + 0.5) // 1 + 0.1) / scale, scale = 10 ^ digits; this
identical rule appears in format_day (dayRound), format_sec (secRound)
and format_day_sec (daySecRound); and the rendered fraction never
drifts: the integer part is the floor of the correctly rounded value,
the digit loop reproduces exactly the base-10 digits of the rounded
integer, and the scalar one-shot fraction extraction gives the rounded
integer modulo the scale.  Real arithmetic is modelled exactly over the
rationals. -/
theorem c6_rounding_bias :
    (dayRound = secRound ∧ secRound = daySecRound) ∧
    ∀ (d : ℕ) (v : ℚ), 0 ≤ v →
      pyInt (dayRound d v) = ⌊v * 10 ^ d + 1 / 2⌋ / 10 ^ d ∧
      fracDigitsLoop (dayRound d v - (pyInt (dayRound d v) : ℚ)) d =
        decimalDigitsZ (⌊v * 10 ^ d + 1 / 2⌋ % 10 ^ d) d ∧
      ⌊(dayRound d v - (pyInt (dayRound d v) : ℚ)) * 10 ^ d⌋ =
        ⌊v * 10 ^ d + 1 / 2⌋ % 10 ^ d := by
  refine ⟨⟨rfl, rfl⟩, fun d v hv => ?_⟩
  have hint := pyInt_dayRound (d := d) hv
  have hfrac : dayRound d v - (pyInt (dayRound d v) : ℚ) =
      (((⌊v * 10 ^ d + 1 / 2⌋ % 10 ^ d : ℤ) : ℚ) + 1 / 10) / 10 ^ d := by
    rw [hint, dayRound_eq]
    have := bias_frac_split ⌊v * 10 ^ d + 1 / 2⌋ d
    push_cast at this ⊢
    exact this
  have hm0 : (0 : ℤ) ≤ ⌊v * 10 ^ d + 1 / 2⌋ % 10 ^ d :=
    Int.emod_nonneg _ (by positivity)
  have hmlt : ⌊v * 10 ^ d + 1 / 2⌋ % 10 ^ d < 10 ^ d :=
    Int.emod_lt_of_pos _ (by positivity)
  refine ⟨hint, ?_, ?_⟩
  · rw [hfrac]
    exact fracDigitsLoop_digits d _ hm0 hmlt
  · rw [hfrac]
    have hp : ((10 : ℚ)) ^ d ≠ 0 := by positivity
    rw [show ((((⌊v * 10 ^ d + 1 / 2⌋ % 10 ^ d : ℤ) : ℚ) + 1 / 10) / 10 ^ d) *
          10 ^ d = ((⌊v * 10 ^ d + 1 / 2⌋ % 10 ^ d : ℤ) : ℚ) + 1 / 10 from by
        field_simp
        ring]
    rw [show (((⌊v * 10 ^ d + 1 / 2⌋ % 10 ^ d : ℤ) : ℚ) + 1 / 10) =
          ((⌊v * 10 ^ d + 1 / 2⌋ % 10 ^ d : ℤ) : ℚ) + (1 / 10 : ℚ) from rfl,
        Int.floor_int_add]
    norm_num

theorem mem_joinFields {x : Char} {dash : List Char} :
    ∀ {segs : List (List Char)}, x ∈ joinFields dash segs →
      x ∈ dash ∨ ∃ t ∈ segs, x ∈ t := by
  intro segs
  induction segs with
  | nil => intro h; cases h
  | cons a rest ih =>
    cases rest with
    | nil =>
      intro h
      right
      exact ⟨a, by simp, by simpa [joinFields] using h⟩
    | cons b rest2 =>
      intro h
      have h' : x ∈ (a ++ dash) ++ joinFields dash (b :: rest2) := h
      rcases List.mem_append.mp h' with h1 | h2
      · rcases List.mem_append.mp h1 with ha | hd
        · exact Or.inr ⟨a, by simp, ha⟩
        · exact Or.inl hd
      · rcases ih h2 with hd | ⟨t, ht, hx⟩
        · exact Or.inl hd
        · exact Or.inr ⟨t, List.mem_cons_of_mem a ht, hx⟩

theorem joinFields_length (dash : List Char) :
    ∀ segs : List (List Char), segs ≠ [] →
      (joinFields dash segs).length =
        (segs.map List.length).sum + (segs.length - 1) * dash.length := by
  intro segs
  induction segs with
  | nil => intro h; exact absurd rfl h
  | cons a rest ih =>
    intro _
    cases rest with
    | nil => simp [joinFields]
    | cons b rest2 =>
      have hlen := ih (by simp)
      show ((a ++ dash) ++ joinFields dash (b :: rest2)).length = _
      rw [List.length_append, List.length_append, hlen]
      simp only [List.map_cons, List.sum_cons, List.length_cons,
        Nat.add_sub_cancel]
      ring

theorem no_dot_pyPadInt {w : ℕ} {v : ℤ} (h0 : 0 ≤ v) (hlt : v < 10 ^ w) :
    '.' ∉ pyPadInt w v := fun hm => by
  have := mem_pyPadInt h0 hlt hm
  exact absurd this (by decide)

theorem emod100_bounds (v : ℤ) : 0 ≤ v % 100 ∧ v % 100 < 10 ^ 2 :=
  ⟨Int.emod_nonneg _ (by norm_num), by
    have := Int.emod_lt_of_pos v (show (0 : ℤ) < 100 by norm_num)
    norm_num
    exact this⟩

/-- Claim C10: for integer day input, format_day ignores the ddigits
option entirely, the rendered record contains no decimal point (the
fraction dot is emitted only for float input with nonnegative ddigits),
and the record width is a function of order, ydigits and dash alone.
The hypotheses bound the adapter-supplied calendar fields to their
documented ranges, and exclude a dot inside the caller-chosen dash
text. -/
theorem c10_integer_day_fraction_suppressed
    (A : CalendarAdapter) (i : ℤ) (order : String) (ydigits : ℕ)
    (dash : String) (ddigits : Option ℤ) (p : Bool)
    (hdot : '.' ∉ dash.toList)
    (hm3 : order.length = 3 →
      0 ≤ (A.ymd_from_day p i).2.1 ∧ (A.ymd_from_day p i).2.1 < 10 ^ 2)
    (hd3 : order.length = 3 →
      0 ≤ (A.ymd_from_day p i).2.2 ∧ (A.ymd_from_day p i).2.2 < 10 ^ 2)
    (hd2 : order.length = 2 →
      0 ≤ (A.yd_from_day p i).2 ∧ (A.yd_from_day p i).2 < 10 ^ 3)
    (hy3 : order.length = 3 → ydigits = 4 →
      0 ≤ (A.ymd_from_day p i).1 ∧ (A.ymd_from_day p i).1 < 10 ^ 4)
    (hy2 : order.length = 2 → ydigits = 4 →
      0 ≤ (A.yd_from_day p i).1 ∧ (A.yd_from_day p i).1 < 10 ^ 4) :
    formatDayScalar A (.inl i) order ydigits dash ddigits p =
      formatDayScalar A (.inl i) order ydigits dash none p ∧
    ∀ s, formatDayScalar A (.inl i) order ydigits dash ddigits p = .ok s →
      '.' ∉ s ∧ s.length = dayRecordWidth order.length ydigits dash.length := by
  refine ⟨rfl, fun s hs => ?_⟩
  by_cases horder : order ∈ ["YMD", "MDY", "DMY", "YD", "DY"]
  case neg =>
    unfold formatDayScalar at hs
    rw [if_pos (by simp [horder])] at hs
    cases hs
  case pos =>
    have hyd : ydigits = 2 ∨ ydigits = 4 := by
      by_contra hcon
      push_neg at hcon
      have hg : ¬(ydigits = 2 || ydigits = 4) = true := by
        simp [hcon.1, hcon.2]
      fin_cases horder <;>
        · unfold formatDayScalar at hs
          rw [if_neg (by simp), if_pos (by simp [hcon.1, hcon.2])] at hs
          cases hs
    have hseg : ∀ (w : ℕ) (v : ℤ), 0 ≤ v → v < 10 ^ w →
        ('.' ∉ pyPadInt w v ++ ([] : List Char)) ∧
          (pyPadInt w v ++ ([] : List Char)).length = w := by
      intro w v h0 hlt
      refine ⟨?_, by simp [pyPadInt_length h0 hlt]⟩
      intro hmem
      rw [List.append_nil] at hmem
      exact no_dot_pyPadInt h0 hlt hmem
    fin_cases horder <;> rcases hyd with rfl | rfl
    -- "YMD", ydigits = 2
    · have hred : formatDayScalar A (.inl i) "YMD" 2 dash ddigits p =
          .ok (joinFields dash.toList
            [pyPadInt 2 ((A.ymd_from_day p i).1 % 100),
             pyPadInt 2 (A.ymd_from_day p i).2.1,
             pyPadInt 2 (A.ymd_from_day p i).2.2 ++ []]) := rfl
      rw [hred] at hs
      obtain rfl := Except.ok.inj hs
      obtain ⟨hm0, hm1⟩ := hm3 rfl
      obtain ⟨hd0, hd1⟩ := hd3 rfl
      obtain ⟨he0, he1⟩ := emod100_bounds (A.ymd_from_day p i).1
      constructor
      · intro hmem
        rcases mem_joinFields hmem with hmd | ⟨t, ht, hx⟩
        · exact hdot hmd
        · simp only [List.mem_cons, List.not_mem_nil, or_false] at ht
          rcases ht with rfl | rfl | rfl
          · exact no_dot_pyPadInt he0 he1 hx
          · exact no_dot_pyPadInt hm0 hm1 hx
          · exact (hseg 2 _ hd0 hd1).1 hx
      · rw [joinFields_length _ _ (by simp)]
        simp only [List.length_cons, List.length_nil,
          List.map_cons, List.map_nil, List.sum_cons, List.sum_nil,
          pyPadInt_length he0 he1,
          pyPadInt_length hm0 hm1,
          (hseg 2 _ hd0 hd1).2]
        rw [show dayRecordWidth ("YMD" : String).length 2 dash.length =
              6 + 2 * dash.length from rfl,
            show dash.toList.length = dash.length from rfl]
        omega
    -- "YMD", ydigits = 4
    · have hred : formatDayScalar A (.inl i) "YMD" 4 dash ddigits p =
          .ok (joinFields dash.toList
            [pyPadInt 4 (A.ymd_from_day p i).1,
             pyPadInt 2 (A.ymd_from_day p i).2.1,
             pyPadInt 2 (A.ymd_from_day p i).2.2 ++ []]) := rfl
      rw [hred] at hs
      obtain rfl := Except.ok.inj hs
      obtain ⟨hm0, hm1⟩ := hm3 rfl
      obtain ⟨hd0, hd1⟩ := hd3 rfl
      obtain ⟨hy0, hy1⟩ := hy3 rfl rfl
      constructor
      · intro hmem
        rcases mem_joinFields hmem with hmd | ⟨t, ht, hx⟩
        · exact hdot hmd
        · simp only [List.mem_cons, List.not_mem_nil, or_false] at ht
          rcases ht with rfl | rfl | rfl
          · exact no_dot_pyPadInt hy0 hy1 hx
          · exact no_dot_pyPadInt hm0 hm1 hx
          · exact (hseg 2 _ hd0 hd1).1 hx
      · rw [joinFields_length _ _ (by simp)]
        simp only [List.length_cons, List.length_nil,
          List.map_cons, List.map_nil, List.sum_cons, List.sum_nil,
          pyPadInt_length hy0 hy1,
          pyPadInt_length hm0 hm1,
          (hseg 2 _ hd0 hd1).2]
        rw [show dayRecordWidth ("YMD" : String).length 4 dash.length =
              8 + 2 * dash.length from rfl,
            show dash.toList.length = dash.length from rfl]
        omega
    -- "MDY", ydigits = 2
    · have hred : formatDayScalar A (.inl i) "MDY" 2 dash ddigits p =
          .ok (joinFields dash.toList
            [pyPadInt 2 (A.ymd_from_day p i).2.1,
             pyPadInt 2 (A.ymd_from_day p i).2.2 ++ [],
             pyPadInt 2 ((A.ymd_from_day p i).1 % 100)]) := rfl
      rw [hred] at hs
      obtain rfl := Except.ok.inj hs
      obtain ⟨hm0, hm1⟩ := hm3 rfl
      obtain ⟨hd0, hd1⟩ := hd3 rfl
      obtain ⟨he0, he1⟩ := emod100_bounds (A.ymd_from_day p i).1
      constructor
      · intro hmem
        rcases mem_joinFields hmem with hmd | ⟨t, ht, hx⟩
        · exact hdot hmd
        · simp only [List.mem_cons, List.not_mem_nil, or_false] at ht
          rcases ht with rfl | rfl | rfl
          · exact no_dot_pyPadInt hm0 hm1 hx
          · exact (hseg 2 _ hd0 hd1).1 hx
          · exact no_dot_pyPadInt he0 he1 hx
      · rw [joinFields_length _ _ (by simp)]
        simp only [List.length_cons, List.length_nil,
          List.map_cons, List.map_nil, List.sum_cons, List.sum_nil,
          pyPadInt_length he0 he1,
          pyPadInt_length hm0 hm1,
          (hseg 2 _ hd0 hd1).2]
        rw [show dayRecordWidth ("MDY" : String).length 2 dash.length =
              6 + 2 * dash.length from rfl,
            show dash.toList.length = dash.length from rfl]
        omega
    -- "MDY", ydigits = 4
    · have hred : formatDayScalar A (.inl i) "MDY" 4 dash ddigits p =
          .ok (joinFields dash.toList
            [pyPadInt 2 (A.ymd_from_day p i).2.1,
             pyPadInt 2 (A.ymd_from_day p i).2.2 ++ [],
             pyPadInt 4 (A.ymd_from_day p i).1]) := rfl
      rw [hred] at hs
      obtain rfl := Except.ok.inj hs
      obtain ⟨hm0, hm1⟩ := hm3 rfl
      obtain ⟨hd0, hd1⟩ := hd3 rfl
      obtain ⟨hy0, hy1⟩ := hy3 rfl rfl
      constructor
      · intro hmem
        rcases mem_joinFields hmem with hmd | ⟨t, ht, hx⟩
        · exact hdot hmd
        · simp only [List.mem_cons, List.not_mem_nil, or_false] at ht
          rcases ht with rfl | rfl | rfl
          · exact no_dot_pyPadInt hm0 hm1 hx
          · exact (hseg 2 _ hd0 hd1).1 hx
          · exact no_dot_pyPadInt hy0 hy1 hx
      · rw [joinFields_length _ _ (by simp)]
        simp only [List.length_cons, List.length_nil,
          List.map_cons, List.map_nil, List.sum_cons, List.sum_nil,
          pyPadInt_length hy0 hy1,
          pyPadInt_length hm0 hm1,
          (hseg 2 _ hd0 hd1).2]
        rw [show dayRecordWidth ("MDY" : String).length 4 dash.length =
              8 + 2 * dash.length from rfl,
            show dash.toList.length = dash.length from rfl]
        omega
    -- "DMY", ydigits = 2
    · have hred : formatDayScalar A (.inl i) "DMY" 2 dash ddigits p =
          .ok (joinFields dash.toList
            [pyPadInt 2 (A.ymd_from_day p i).2.2 ++ [],
             pyPadInt 2 (A.ymd_from_day p i).2.1,
             pyPadInt 2 ((A.ymd_from_day p i).1 % 100)]) := rfl
      rw [hred] at hs
      obtain rfl := Except.ok.inj hs
      obtain ⟨hm0, hm1⟩ := hm3 rfl
      obtain ⟨hd0, hd1⟩ := hd3 rfl
      obtain ⟨he0, he1⟩ := emod100_bounds (A.ymd_from_day p i).1
      constructor
      · intro hmem
        rcases mem_joinFields hmem with hmd | ⟨t, ht, hx⟩
        · exact hdot hmd
        · simp only [List.mem_cons, List.not_mem_nil, or_false] at ht
          rcases ht with rfl | rfl | rfl
          · exact (hseg 2 _ hd0 hd1).1 hx
          · exact no_dot_pyPadInt hm0 hm1 hx
          · exact no_dot_pyPadInt he0 he1 hx
      · rw [joinFields_length _ _ (by simp)]
        simp only [List.length_cons, List.length_nil,
          List.map_cons, List.map_nil, List.sum_cons, List.sum_nil,
          pyPadInt_length he0 he1,
          pyPadInt_length hm0 hm1,
          (hseg 2 _ hd0 hd1).2]
        rw [show dayRecordWidth ("DMY" : String).length 2 dash.length =
              6 + 2 * dash.length from rfl,
            show dash.toList.length = dash.length from rfl]
        omega
    -- "DMY", ydigits = 4
    · have hred : formatDayScalar A (.inl i) "DMY" 4 dash ddigits p =
          .ok (joinFields dash.toList
            [pyPadInt 2 (A.ymd_from_day p i).2.2 ++ [],
             pyPadInt 2 (A.ymd_from_day p i).2.1,
             pyPadInt 4 (A.ymd_from_day p i).1]) := rfl
      rw [hred] at hs
      obtain rfl := Except.ok.inj hs
      obtain ⟨hm0, hm1⟩ := hm3 rfl
      obtain ⟨hd0, hd1⟩ := hd3 rfl
      obtain ⟨hy0, hy1⟩ := hy3 rfl rfl
      constructor
      · intro hmem
        rcases mem_joinFields hmem with hmd | ⟨t, ht, hx⟩
        · exact hdot hmd
        · simp only [List.mem_cons, List.not_mem_nil, or_false] at ht
          rcases ht with rfl | rfl | rfl
          · exact (hseg 2 _ hd0 hd1).1 hx
          · exact no_dot_pyPadInt hm0 hm1 hx
          · exact no_dot_pyPadInt hy0 hy1 hx
      · rw [joinFields_length _ _ (by simp)]
        simp only [List.length_cons, List.length_nil,
          List.map_cons, List.map_nil, List.sum_cons, List.sum_nil,
          pyPadInt_length hy0 hy1,
          pyPadInt_length hm0 hm1,
          (hseg 2 _ hd0 hd1).2]
        rw [show dayRecordWidth ("DMY" : String).length 4 dash.length =
              8 + 2 * dash.length from rfl,
            show dash.toList.length = dash.length from rfl]
        omega
    -- "YD", ydigits = 2
    · have hred : formatDayScalar A (.inl i) "YD" 2 dash ddigits p =
          .ok (joinFields dash.toList
            [pyPadInt 2 ((A.yd_from_day p i).1 % 100),
             pyPadInt 3 (A.yd_from_day p i).2 ++ []]) := rfl
      rw [hred] at hs
      obtain rfl := Except.ok.inj hs
      obtain ⟨hd0, hd1⟩ := hd2 rfl
      obtain ⟨he0, he1⟩ := emod100_bounds (A.yd_from_day p i).1
      constructor
      · intro hmem
        rcases mem_joinFields hmem with hmd | ⟨t, ht, hx⟩
        · exact hdot hmd
        · simp only [List.mem_cons, List.not_mem_nil, or_false] at ht
          rcases ht with rfl | rfl
          · exact no_dot_pyPadInt he0 he1 hx
          · exact (hseg 3 _ hd0 hd1).1 hx
      · rw [joinFields_length _ _ (by simp)]
        simp only [List.length_cons, List.length_nil,
          List.map_cons, List.map_nil, List.sum_cons, List.sum_nil,
          pyPadInt_length he0 he1,
          (hseg 3 _ hd0 hd1).2]
        rw [show dayRecordWidth ("YD" : String).length 2 dash.length =
              5 + 1 * dash.length from rfl,
            show dash.toList.length = dash.length from rfl]
        omega
    -- "YD", ydigits = 4
    · have hred : formatDayScalar A (.inl i) "YD" 4 dash ddigits p =
          .ok (joinFields dash.toList
            [pyPadInt 4 (A.yd_from_day p i).1,
             pyPadInt 3 (A.yd_from_day p i).2 ++ []]) := rfl
      rw [hred] at hs
      obtain rfl := Except.ok.inj hs
      obtain ⟨hd0, hd1⟩ := hd2 rfl
      obtain ⟨hy0, hy1⟩ := hy2 rfl rfl
      constructor
      · intro hmem
        rcases mem_joinFields hmem with hmd | ⟨t, ht, hx⟩
        · exact hdot hmd
        · simp only [List.mem_cons, List.not_mem_nil, or_false] at ht
          rcases ht with rfl | rfl
          · exact no_dot_pyPadInt hy0 hy1 hx
          · exact (hseg 3 _ hd0 hd1).1 hx
      · rw [joinFields_length _ _ (by simp)]
        simp only [List.length_cons, List.length_nil,
          List.map_cons, List.map_nil, List.sum_cons, List.sum_nil,
          pyPadInt_length hy0 hy1,
          (hseg 3 _ hd0 hd1).2]
        rw [show dayRecordWidth ("YD" : String).length 4 dash.length =
              7 + 1 * dash.length from rfl,
            show dash.toList.length = dash.length from rfl]
        omega
    -- "DY", ydigits = 2
    · have hred : formatDayScalar A (.inl i) "DY" 2 dash ddigits p =
          .ok (joinFields dash.toList
            [pyPadInt 3 (A.yd_from_day p i).2 ++ [],
             pyPadInt 2 ((A.yd_from_day p i).1 % 100)]) := rfl
      rw [hred] at hs
      obtain rfl := Except.ok.inj hs
      obtain ⟨hd0, hd1⟩ := hd2 rfl
      obtain ⟨he0, he1⟩ := emod100_bounds (A.yd_from_day p i).1
      constructor
      · intro hmem
        rcases mem_joinFields hmem with hmd | ⟨t, ht, hx⟩
        · exact hdot hmd
        · simp only [List.mem_cons, List.not_mem_nil, or_false] at ht
          rcases ht with rfl | rfl
          · exact (hseg 3 _ hd0 hd1).1 hx
          · exact no_dot_pyPadInt he0 he1 hx
      · rw [joinFields_length _ _ (by simp)]
        simp only [List.length_cons, List.length_nil,
          List.map_cons, List.map_nil, List.sum_cons, List.sum_nil,
          pyPadInt_length he0 he1,
          (hseg 3 _ hd0 hd1).2]
        rw [show dayRecordWidth ("DY" : String).length 2 dash.length =
              5 + 1 * dash.length from rfl,
            show dash.toList.length = dash.length from rfl]
        omega
    -- "DY", ydigits = 4
    · have hred : formatDayScalar A (.inl i) "DY" 4 dash ddigits p =
          .ok (joinFields dash.toList
            [pyPadInt 3 (A.yd_from_day p i).2 ++ [],
             pyPadInt 4 (A.yd_from_day p i).1]) := rfl
      rw [hred] at hs
      obtain rfl := Except.ok.inj hs
      obtain ⟨hd0, hd1⟩ := hd2 rfl
      obtain ⟨hy0, hy1⟩ := hy2 rfl rfl
      constructor
      · intro hmem
        rcases mem_joinFields hmem with hmd | ⟨t, ht, hx⟩
        · exact hdot hmd
        · simp only [List.mem_cons, List.not_mem_nil, or_false] at ht
          rcases ht with rfl | rfl
          · exact (hseg 3 _ hd0 hd1).1 hx
          · exact no_dot_pyPadInt hy0 hy1 hx
      · rw [joinFields_length _ _ (by simp)]
        simp only [List.length_cons, List.length_nil,
          List.map_cons, List.map_nil, List.sum_cons, List.sum_nil,
          pyPadInt_length hy0 hy1,
          (hseg 3 _ hd0 hd1).2]
        rw [show dayRecordWidth ("DY" : String).length 4 dash.length =
              7 + 1 * dash.length from rfl,
            show dash.toList.length = dash.length from rfl]
        omega

/-- Witness for C10: integer day 0 with ddigits = 5 under the test
adapter renders dotless with width 10. -/
theorem c10_integer_day_fraction_suppressed_witness :
    formatDayScalar testAdapter (.inl 0) "YMD" 4 "-" (some 5) false =
      formatDayScalar testAdapter (.inl 0) "YMD" 4 "-" none false ∧
    ∀ s, formatDayScalar testAdapter (.inl 0) "YMD" 4 "-" (some 5) false = .ok s →
      '.' ∉ s ∧ s.length = dayRecordWidth "YMD".length 4 "-".length :=
  c10_integer_day_fraction_suppressed testAdapter 0 "YMD" 4 "-" (some 5) false
    (by decide) (fun _ => by constructor <;> decide)
    (fun _ => by constructor <;> decide)
    (fun h => by cases h)
    (fun _ _ => by constructor <;> decide)
    (fun h _ => by cases h)

theorem count_eq_zero_of_digits {c : Char} {s : List Char}
    (hc : isDigitCh c = false) (h : ∀ x ∈ s, isDigitCh x = true) :
    s.count c = 0 :=
  List.count_eq_zero.mpr (fun hm => isDigitCh_ne (h c hm) hc rfl)

/-! ## Claim C1: encode/decode round trip -/

theorem bias_floor (K : ℤ) (d : ℕ) :
    ⌊(((K : ℚ) + 1 / 10) / 10 ^ d) * 10 ^ d + 1 / 2⌋ = K := by
  have hpow : ((10 : ℚ)) ^ d ≠ 0 := by positivity
  rw [div_mul_cancel₀ _ hpow]
  rw [show ((K : ℚ) + 1 / 10 + 1 / 2) = ((K : ℤ) : ℚ) + (3 / 5 : ℚ) by
    push_cast; ring]
  rw [Int.floor_int_add]
  norm_num

theorem secRound_fixed (d : ℕ) (K : ℤ) :
    secRound d (((K : ℚ) + 1 / 10) / 10 ^ d) = ((K : ℚ) + 1 / 10) / 10 ^ d := by
  unfold secRound
  rw [bias_floor]

theorem pyInt_bias (d : ℕ) (K : ℤ) (hK : 0 ≤ K) :
    pyInt (((K : ℚ) + 1 / 10) / 10 ^ d) = K / 10 ^ d := by
  have hKq : (0 : ℚ) ≤ (K : ℚ) := by exact_mod_cast hK
  have hx0 : (0 : ℚ) ≤ ((K : ℚ) + 1 / 10) / 10 ^ d := by positivity
  unfold pyInt
  rw [if_neg (not_lt.mpr hx0)]
  have := floor_int_bias_div K (10 ^ d) (by positivity)
  push_cast at this ⊢
  exact this

theorem frac_floor (d : ℕ) (K : ℤ) :
    ⌊((((K : ℚ) + 1 / 10) / 10 ^ d) - ((K / 10 ^ d : ℤ) : ℚ)) * 10 ^ d⌋ =
      K % 10 ^ d := by
  rw [bias_frac_split K d]
  have hpow : ((10 : ℚ)) ^ d ≠ 0 := by positivity
  rw [div_mul_cancel₀ _ hpow]
  rw [show (((K % 10 ^ d : ℤ) : ℚ) + 1 / 10) =
      ((K % 10 ^ d : ℤ) : ℚ) + (1 / 10 : ℚ) from rfl]
  rw [Int.floor_int_add]
  norm_num

theorem ediv_emod_sum_q (K : ℤ) (d : ℕ) :
    ((K / 10 ^ d : ℤ) : ℚ) + ((K % 10 ^ d : ℤ) : ℚ) / 10 ^ d =
      (K : ℚ) / 10 ^ d := by
  have hmod := Int.ediv_add_emod K (10 ^ d)
  have hq : ((10 : ℚ)) ^ d ≠ 0 := by positivity
  have hcast : ((10 : ℚ)) ^ d * ((K / 10 ^ d : ℤ) : ℚ) +
      ((K % 10 ^ d : ℤ) : ℚ) = (K : ℚ) := by
    exact_mod_cast congrArg (fun z : ℤ => (z : ℚ)) hmod
  field_simp
  linarith

theorem hms_sum (x : ℚ) (h0 : 0 ≤ x) (h1 : x < 86401) :
    0 ≤ (hmsFromSec x).1 ∧ (hmsFromSec x).1 < 24 ∧
    0 ≤ (hmsFromSec x).2.1 ∧ (hmsFromSec x).2.1 < 60 ∧
    0 ≤ (hmsFromSec x).2.2 ∧ ⌊(hmsFromSec x).2.2⌋ < 61 ∧
    3600 * (hmsFromSec x).1 + 60 * (hmsFromSec x).2.1 +
      ⌊(hmsFromSec x).2.2⌋ = ⌊x⌋ := by
  have hX0 : (0 : ℤ) ≤ ⌊x⌋ := Int.floor_nonneg.mpr h0
  have hX1 : ⌊x⌋ < 86401 := by
    apply Int.floor_lt.mpr
    exact_mod_cast h1
  have hdiv1 : ⌊x / 3600⌋ = ⌊x⌋ / 3600 := by
    have := floor_div_nat_q x 3600 (by norm_num)
    push_cast at this
    exact this
  simp only [hmsFromSec]
  rw [hdiv1]
  set H := min (⌊x⌋ / 3600) 23 with hHdef
  have hfs1 : ⌊x - 3600 * (H : ℚ)⌋ = ⌊x⌋ - 3600 * H := by
    rw [show x - 3600 * (H : ℚ) = x - ((3600 * H : ℤ) : ℚ) by push_cast; ring]
    rw [Int.floor_sub_int]
  have hdiv2 : ⌊(x - 3600 * (H : ℚ)) / 60⌋ = (⌊x⌋ - 3600 * H) / 60 := by
    have := floor_div_nat_q (x - 3600 * (H : ℚ)) 60 (by norm_num)
    push_cast at this
    rw [this, hfs1]
  rw [hdiv2]
  set M := min ((⌊x⌋ - 3600 * H) / 60) 59 with hMdef
  have hfs2 : ⌊x - 3600 * (H : ℚ) - 60 * (M : ℚ)⌋ = ⌊x⌋ - 3600 * H - 60 * M := by
    rw [show x - 3600 * (H : ℚ) - 60 * (M : ℚ) =
        x - ((3600 * H + 60 * M : ℤ) : ℚ) by push_cast; ring]
    rw [Int.floor_sub_int]
    ring
  have hHa : H ≤ ⌊x⌋ / 3600 := min_le_left _ _
  have hHb : H ≤ 23 := min_le_right _ _
  have hHc : H = ⌊x⌋ / 3600 ∨ H = 23 := min_choice _ _
  have hMa : M ≤ (⌊x⌋ - 3600 * H) / 60 := min_le_left _ _
  have hMb : M ≤ 59 := min_le_right _ _
  have hMc : M = (⌊x⌋ - 3600 * H) / 60 ∨ M = 59 := min_choice _ _
  have hints : 0 ≤ H ∧ H < 24 ∧ 0 ≤ M ∧ M < 60 ∧
      0 ≤ ⌊x⌋ - 3600 * H - 60 * M ∧ ⌊x⌋ - 3600 * H - 60 * M < 61 := by
    rcases hHc with h | h <;> rcases hMc with h' | h' <;> omega
  obtain ⟨i1, i2, i3, i4, i5, i6⟩ := hints
  have hs0 : (0 : ℚ) ≤ x - 3600 * (H : ℚ) - 60 * (M : ℚ) := by
    have := Int.floor_le (x - 3600 * (H : ℚ) - 60 * (M : ℚ))
    rw [hfs2] at this
    have h5q : (0 : ℚ) ≤ ((⌊x⌋ - 3600 * H - 60 * M : ℤ) : ℚ) := by
      exact_mod_cast i5
    push_cast at this h5q
    linarith
  exact ⟨i1, i2, i3, i4, hs0, by rw [hfs2]; exact i6, by rw [hfs2]; ring⟩

theorem pyAt_mem {s : List Char} {i : ℤ} (h0 : 0 ≤ i) (h1 : i < s.length) :
    pyAt s i ∈ s := by
  unfold pyAt
  rw [if_pos h0]
  have hlt : i.toNat < s.length := by omega
  rw [List.getD_eq_getElem _ _ hlt]
  exact List.getElem_mem hlt

theorem idxsFrom_skip_block {c : Char} {a : List Char}
    (ha : ∀ x ∈ a, x ≠ c) (rest : List Char) (k : ℤ) :
    idxsFrom c (a ++ rest) k = idxsFrom c rest (k + a.length) := by
  rw [idxsFrom_append, idxsFrom_eq_nil ha, List.nil_append]

theorem secFromIso_decode (H M SI f : ℤ) (d : ℕ) (hd : 0 < d)
    (hH0 : 0 ≤ H) (hH1 : H < 10 ^ 2) (hM0 : 0 ≤ M) (hM1 : M < 10 ^ 2)
    (hS0 : 0 ≤ SI) (hS1 : SI < 10 ^ 2) (hf0 : 0 ≤ f) (hf1 : f < 10 ^ d) :
    secFromIso false true false false
      [pyPadInt 2 H ++ ':' :: (pyPadInt 2 M ++ ':' ::
        (pyPadInt 2 SI ++ '.' :: pyPadInt d f))] =
      .ok [3600 * (H : ℚ) + 60 * (M : ℚ) + ((SI : ℚ) + (f : ℚ) / 10 ^ d)] := by
  set a := pyPadInt 2 H with hadef
  set b := pyPadInt 2 M with hbdef
  set c := pyPadInt 2 SI with hcdef
  set F := pyPadInt d f with hFdef
  have hlena : a.length = 2 := pyPadInt_length hH0 hH1
  have hlenb : b.length = 2 := pyPadInt_length hM0 hM1
  have hlenc : c.length = 2 := pyPadInt_length hS0 hS1
  have hlenF : F.length = d := pyPadInt_length hf0 hf1
  have hdiga : ∀ x ∈ a, isDigitCh x = true := fun x hx => mem_pyPadInt hH0 hH1 hx
  have hdigb : ∀ x ∈ b, isDigitCh x = true := fun x hx => mem_pyPadInt hM0 hM1 hx
  have hdigc : ∀ x ∈ c, isDigitCh x = true := fun x hx => mem_pyPadInt hS0 hS1 hx
  have hdigF : ∀ x ∈ F, isDigitCh x = true := fun x hx => mem_pyPadInt hf0 hf1 hx
  set enc := a ++ ':' :: (b ++ ':' :: (c ++ '.' :: F)) with hencdef
  have hmem : ∀ x ∈ enc, isDigitCh x = true ∨ x = ':' ∨ x = '.' := by
    intro x hx
    rw [hencdef] at hx
    simp only [List.mem_append, List.mem_cons] at hx
    rcases hx with hx | rfl | hx | rfl | hx | rfl | hx
    · exact Or.inl (hdiga x hx)
    · exact Or.inr (Or.inl rfl)
    · exact Or.inl (hdigb x hx)
    · exact Or.inr (Or.inl rfl)
    · exact Or.inl (hdigc x hx)
    · exact Or.inr (Or.inr rfl)
    · exact Or.inl (hdigF x hx)
  have hlen : enc.length = 9 + d := by
    rw [hencdef]
    simp [hlena, hlenb, hlenc, hlenF]
    omega
  have hlenz : (enc.length : ℤ) = 9 + (d : ℤ) := by
    rw [hlen]; push_cast; ring
  have hstrip : stripTrailingNulls enc = enc :=
    stripTrailingNulls_eq_self (fun x hx => by
      rcases hmem x hx with hd' | rfl | rfl
      · exact digit_ne_null hd'
      · decide
      · decide)
  have hZ : ∀ i : ℤ, 0 ≤ i → i < (enc.length : ℤ) → pyAt enc i ≠ 'Z' := by
    intro i hi0 hi1
    have hm := pyAt_mem hi0 (by exact_mod_cast hi1)
    rcases hmem _ hm with hd' | h | h
    · exact isDigitCh_ne hd' (by decide)
    · rw [h]; decide
    · rw [h]; decide
  have hcolons : idxsOf enc ':' = [2, 5] := by
    show idxsFrom ':' enc 0 = [2, 5]
    rw [hencdef]
    rw [idxsFrom_skip_block (fun x hx => isDigitCh_ne (hdiga x hx)
      (show isDigitCh ':' = false by decide)) _ _]
    rw [hlena, idxsFrom_cons, if_pos rfl]
    rw [idxsFrom_skip_block (fun x hx => isDigitCh_ne (hdigb x hx)
      (show isDigitCh ':' = false by decide)) _ _]
    rw [hlenb, idxsFrom_cons, if_pos rfl]
    rw [idxsFrom_skip_block (fun x hx => isDigitCh_ne (hdigc x hx)
      (show isDigitCh ':' = false by decide)) _ _]
    rw [hlenc, idxsFrom_cons, if_neg (show ¬('.' = ':') by decide)]
    rw [idxsFrom_eq_nil (fun x hx => isDigitCh_ne (hdigF x hx)
      (show isDigitCh ':' = false by decide)) _]
    norm_num
  have hdots : idxsOf enc '.' = [8] := by
    show idxsFrom '.' enc 0 = [8]
    rw [hencdef]
    rw [idxsFrom_skip_block (fun x hx => isDigitCh_ne (hdiga x hx)
      (show isDigitCh '.' = false by decide)) _ _]
    rw [hlena, idxsFrom_cons, if_neg (show ¬(':' = '.') by decide)]
    rw [idxsFrom_skip_block (fun x hx => isDigitCh_ne (hdigb x hx)
      (show isDigitCh '.' = false by decide)) _ _]
    rw [hlenb, idxsFrom_cons, if_neg (show ¬(':' = '.') by decide)]
    rw [idxsFrom_skip_block (fun x hx => isDigitCh_ne (hdigc x hx)
      (show isDigitCh '.' = false by decide)) _ _]
    rw [hlenc, idxsFrom_cons, if_pos rfl]
    rw [idxsFrom_eq_nil (fun x hx => isDigitCh_ne (hdigF x hx)
      (show isDigitCh '.' = false by decide)) _]
    norm_num
  have hlay : secLayout enc 0 (9 + (d : ℤ)) = .ok ([0, 3, 6], [2, 5], 8) := by
    simp only [secLayout]
    rw [hcolons, hdots]
    norm_num
  have hG1 : (secGeometry false enc).first = enc := by
    simp only [secGeometry]
    rw [hstrip]
  have hG2 : (secGeometry false enc).w0 = 0 := by
    simp only [secGeometry]
    norm_num
  have hG4 : (secGeometry false enc).w1 = 0 := by
    simp only [secGeometry]
    norm_num
  have hG5 : (secGeometry false enc).w2 = 0 := by
    simp only [secGeometry]
    rw [hstrip]
    omega
  have hred : (if (false = true) then countWhite enc else ((0, 0) : ℕ × ℕ)) =
      ((0, 0) : ℕ × ℕ) := rfl
  have hG6 : (secGeometry false enc).wz = 0 := by
    simp only [secGeometry]
    rw [hstrip, hred]
    norm_num
    exact hZ _ (by omega) (by omega)
  have hG3 : (secGeometry false enc).kend = 9 + (d : ℤ) := by
    simp only [secGeometry]
    rw [hstrip, hred]
    norm_num
    split
    next h => exact absurd h (hZ _ (by omega) (by omega))
    next h => omega
  have hG7 : (secGeometry false enc).lfirst = 9 + (d : ℤ) := by
    simp only [secGeometry]
    rw [hstrip, hlenz]
  have hH' : pythonInt (sliceZ enc 0 2) = .ok H := by
    rw [show enc = [] ++ a ++ (':' :: (b ++ ':' :: (c ++ '.' :: F))) by
      simp [hencdef]]
    rw [sliceZ_extract [] a _ (by simp) (by simp [hlena])]
    exact pythonInt_pyPadInt (by norm_num) hH0 hH1
  have hM' : pythonInt (sliceZ enc 3 2) = .ok M := by
    rw [show enc = (a ++ [':']) ++ b ++ (':' :: (c ++ '.' :: F)) by
      simp [hencdef]]
    rw [sliceZ_extract (a ++ [':']) b _ (by simp [hlena]) (by simp [hlenb])]
    exact pythonInt_pyPadInt (by norm_num) hM0 hM1
  have hS' : pythonInt (sliceZ enc 6 2) = .ok SI := by
    rw [show enc = (a ++ ':' :: (b ++ [':'])) ++ c ++ ('.' :: F) by
      simp [hencdef]]
    rw [sliceZ_extract (a ++ ':' :: (b ++ [':'])) c _
      (by simp [hlena, hlenb]) (by simp [hlenc])]
    exact pythonInt_pyPadInt (by norm_num) hS0 hS1
  have hf' : pythonInt (sliceZ enc 9 (d : ℤ)) = .ok f := by
    rw [show enc = (a ++ ':' :: (b ++ ':' :: (c ++ ['.']))) ++ F by
      simp [hencdef]]
    rw [sliceZ_extract_end (a ++ ':' :: (b ++ ':' :: (c ++ ['.']))) F
      (by simp [hlena, hlenb, hlenc]) (by simp [hlenF])]
    exact pythonInt_pyPadInt hd hf0 hf1
  have hdne : (d : ℤ) ≠ 0 := by exact_mod_cast hd.ne'
  simp only [secFromIso]
  rw [hG1, hG2, hG3, hG4, hG5, hG6, hG7, hlay]
  simp only [secExtract]
  rw [show (9 + (d : ℤ)) - 8 - 1 = (d : ℤ) by ring]
  norm_num
  simp only [List.mapM.loop, hH', hM', hS', hf', bind, Except.bind, pure,
    Except.pure, hdne]
  simp [secFromHms, List.mapM.loop, List.zip, hdne, zpow_natCast, bind,
    Except.bind, pure, Except.pure]
  simp [hd.ne']

theorem dayFromIso_ymd10 (A : CalendarAdapter) (y m dd : ℤ)
    (hy0 : 0 ≤ y) (hy1 : y < 10 ^ 4) (hm0 : 0 ≤ m) (hm1 : m < 10 ^ 2)
    (hd0 : 0 ≤ dd) (hd1 : dd < 10 ^ 2) :
    dayFromIso A false false false false
      [pyPadInt 4 y ++ '-' :: (pyPadInt 2 m ++ '-' :: pyPadInt 2 dd)] =
      .ok [(A.day_from_ymd false y m dd : ℚ)] := by
  set a := pyPadInt 4 y with hadef
  set b := pyPadInt 2 m with hbdef
  set c := pyPadInt 2 dd with hcdef
  have hlena : a.length = 4 := pyPadInt_length hy0 hy1
  have hlenb : b.length = 2 := pyPadInt_length hm0 hm1
  have hlenc : c.length = 2 := pyPadInt_length hd0 hd1
  have hdiga : ∀ x ∈ a, isDigitCh x = true := fun x hx => mem_pyPadInt hy0 hy1 hx
  have hdigb : ∀ x ∈ b, isDigitCh x = true := fun x hx => mem_pyPadInt hm0 hm1 hx
  have hdigc : ∀ x ∈ c, isDigitCh x = true := fun x hx => mem_pyPadInt hd0 hd1 hx
  set enc := a ++ '-' :: (b ++ '-' :: c) with hencdef
  have hmem : ∀ x ∈ enc, isDigitCh x = true ∨ x = '-' := by
    intro x hx
    rw [hencdef] at hx
    simp only [List.mem_append, List.mem_cons] at hx
    rcases hx with hx | rfl | hx | rfl | hx
    · exact Or.inl (hdiga x hx)
    · exact Or.inr rfl
    · exact Or.inl (hdigb x hx)
    · exact Or.inr rfl
    · exact Or.inl (hdigc x hx)
  have hstrip : stripTrailingNulls enc = enc :=
    stripTrailingNulls_eq_self (fun x hx => by
      rcases hmem x hx with hd' | rfl
      · exact digit_ne_null hd'
      · decide)
  have hlen : enc.length = 10 := by
    rw [hencdef]
    simp [hlena, hlenb, hlenc]
  have hnodot : pyFind enc '.' = -1 := by
    unfold pyFind
    rw [idxFrom_eq_none (fun x hx => by
      rcases hmem x hx with hd' | rfl
      · simp [isDigitCh_ne hd' (show isDigitCh '.' = false by decide)]
      · decide)]
  have hcount : enc.count '-' = 2 := by
    rw [hencdef]
    simp only [List.count_append, List.count_cons,
      count_eq_zero_of_digits (show isDigitCh '-' = false by decide) hdiga,
      count_eq_zero_of_digits (show isDigitCh '-' = false by decide) hdigb,
      count_eq_zero_of_digits (show isDigitCh '-' = false by decide) hdigc]
    decide
  have hkey : dayKey false enc = (10, 2) := by
    simp only [dayKey]
    rw [hstrip, hnodot, hcount, hlen]
    simp
  have hya : pythonInt (sliceZ enc 0 4) = .ok y := by
    have hform : enc = [] ++ a ++ ('-' :: (b ++ '-' :: c)) := by
      rw [hencdef]; simp
    rw [hform, sliceZ_extract [] a ('-' :: (b ++ '-' :: c))
      (by simp) (by simp [hlena])]
    exact pythonInt_pyPadInt (by norm_num) hy0 hy1
  have hma : pythonInt (sliceZ enc 5 2) = .ok m := by
    have hform : enc = (a ++ ['-']) ++ b ++ ('-' :: c) := by
      rw [hencdef]; simp
    rw [hform, sliceZ_extract (a ++ ['-']) b ('-' :: c)
      (by simp [hlena]) (by simp [hlenb])]
    exact pythonInt_pyPadInt (by norm_num) hm0 hm1
  have hda : pythonInt (sliceZ enc 8 2) = .ok dd := by
    have hform : enc = (a ++ '-' :: (b ++ ['-'])) ++ c ++ [] := by
      rw [hencdef]; simp
    rw [hform, sliceZ_extract (a ++ '-' :: (b ++ ['-'])) c []
      (by simp [hlena, hlenb]) (by simp [hlenc])]
    exact pythonInt_pyPadInt (by norm_num) hd0 hd1
  show dayFromIso A false false false false [enc] =
    .ok [(A.day_from_ymd false y m dd : ℚ)]
  simp only [dayFromIso]
  rw [hstrip]
  split
  case h_1 heq =>
    rw [hkey] at heq
    exact absurd heq (by decide)
  case h_2 y1 m0 d0 dlen dashes heq =>
    rw [hkey,
      show isoDateFormatInfo (10, 2) = some (4, 5, 8, 2, [4, 7]) from rfl] at heq
    simp only [Option.some.injEq, Prod.mk.injEq] at heq
    obtain ⟨rfl, rfl, rfl, rfl, rfl⟩ := heq
    simp only [dayExtract]
    rw [hnodot, hlen]
    norm_num
    simp only [List.mapM.loop, hya, hma, hda]
    simp [callDayFromYmd, bind, Except.bind, pure, Except.pure,
      List.mapM.loop, List.zip]

theorem dayFromIso_ymd10_frac (A : CalendarAdapter) (y m dd f : ℤ) (d : ℕ)
    (hd : 0 < d)
    (hy0 : 0 ≤ y) (hy1 : y < 10 ^ 4) (hm0 : 0 ≤ m) (hm1 : m < 10 ^ 2)
    (hd0 : 0 ≤ dd) (hd1 : dd < 10 ^ 2) (hf0 : 0 ≤ f) (hf1 : f < 10 ^ d) :
    dayFromIso A false false false false
      [pyPadInt 4 y ++ '-' :: (pyPadInt 2 m ++ '-' ::
        (pyPadInt 2 dd ++ '.' :: pyPadInt d f))] =
      .ok [(A.day_from_ymd false y m dd : ℚ) + (f : ℚ) / 10 ^ d] := by
  set a := pyPadInt 4 y with hadef
  set b := pyPadInt 2 m with hbdef
  set c := pyPadInt 2 dd with hcdef
  set F := pyPadInt d f with hFdef
  have hlena : a.length = 4 := pyPadInt_length hy0 hy1
  have hlenb : b.length = 2 := pyPadInt_length hm0 hm1
  have hlenc : c.length = 2 := pyPadInt_length hd0 hd1
  have hlenF : F.length = d := pyPadInt_length hf0 hf1
  have hdiga : ∀ x ∈ a, isDigitCh x = true := fun x hx => mem_pyPadInt hy0 hy1 hx
  have hdigb : ∀ x ∈ b, isDigitCh x = true := fun x hx => mem_pyPadInt hm0 hm1 hx
  have hdigc : ∀ x ∈ c, isDigitCh x = true := fun x hx => mem_pyPadInt hd0 hd1 hx
  have hdigF : ∀ x ∈ F, isDigitCh x = true := fun x hx => mem_pyPadInt hf0 hf1 hx
  set enc := a ++ '-' :: (b ++ '-' :: (c ++ '.' :: F)) with hencdef
  have hmem : ∀ x ∈ enc, isDigitCh x = true ∨ x = '-' ∨ x = '.' := by
    intro x hx
    rw [hencdef] at hx
    simp only [List.mem_append, List.mem_cons] at hx
    rcases hx with hx | rfl | hx | rfl | hx | rfl | hx
    · exact Or.inl (hdiga x hx)
    · exact Or.inr (Or.inl rfl)
    · exact Or.inl (hdigb x hx)
    · exact Or.inr (Or.inl rfl)
    · exact Or.inl (hdigc x hx)
    · exact Or.inr (Or.inr rfl)
    · exact Or.inl (hdigF x hx)
  have hstrip : stripTrailingNulls enc = enc :=
    stripTrailingNulls_eq_self (fun x hx => by
      rcases hmem x hx with hd' | rfl | rfl
      · exact digit_ne_null hd'
      · decide
      · decide)
  have hlen : enc.length = 11 + d := by
    rw [hencdef]
    simp [hlena, hlenb, hlenc, hlenF]
    omega
  have hlenz : (enc.length : ℤ) = 11 + (d : ℤ) := by
    rw [hlen]; push_cast; ring
  have hdotfind : pyFind enc '.' = 10 := by
    unfold pyFind
    rw [hencdef]
    rw [idxFrom_append_left_none (fun x hx => by
      simp [isDigitCh_ne (hdiga x hx) (show isDigitCh '.' = false by decide)]) _ 0]
    rw [hlena, idxFrom_cons]
    rw [if_neg (by simp)]
    rw [idxFrom_append_left_none (fun x hx => by
      simp [isDigitCh_ne (hdigb x hx) (show isDigitCh '.' = false by decide)]) _ _]
    rw [hlenb, idxFrom_cons]
    rw [if_neg (by simp)]
    rw [idxFrom_append_left_none (fun x hx => by
      simp [isDigitCh_ne (hdigc x hx) (show isDigitCh '.' = false by decide)]) _ _]
    rw [hlenc, idxFrom_cons]
    rw [if_pos (by simp)]
    norm_num
  have hcount : enc.count '-' = 2 := by
    rw [hencdef]
    simp only [List.count_append, List.count_cons,
      count_eq_zero_of_digits (show isDigitCh '-' = false by decide) hdiga,
      count_eq_zero_of_digits (show isDigitCh '-' = false by decide) hdigb,
      count_eq_zero_of_digits (show isDigitCh '-' = false by decide) hdigc,
      count_eq_zero_of_digits (show isDigitCh '-' = false by decide) hdigF]
    decide
  have hkey : dayKey false enc = (10, 2) := by
    simp only [dayKey]
    rw [hstrip, hdotfind, hcount]
    norm_num
  have hya : pythonInt (sliceZ enc 0 4) = .ok y := by
    have hform : enc = [] ++ a ++ ('-' :: (b ++ '-' :: (c ++ '.' :: F))) := by
      rw [hencdef]; simp
    rw [hform, sliceZ_extract [] a _ (by simp) (by simp [hlena])]
    exact pythonInt_pyPadInt (by norm_num) hy0 hy1
  have hma : pythonInt (sliceZ enc 5 2) = .ok m := by
    have hform : enc = (a ++ ['-']) ++ b ++ ('-' :: (c ++ '.' :: F)) := by
      rw [hencdef]; simp
    rw [hform, sliceZ_extract (a ++ ['-']) b _
      (by simp [hlena]) (by simp [hlenb])]
    exact pythonInt_pyPadInt (by norm_num) hm0 hm1
  have hda : pythonInt (sliceZ enc 8 2) = .ok dd := by
    have hform : enc = (a ++ '-' :: (b ++ ['-'])) ++ c ++ ('.' :: F) := by
      rw [hencdef]; simp
    rw [hform, sliceZ_extract (a ++ '-' :: (b ++ ['-'])) c _
      (by simp [hlena, hlenb]) (by simp [hlenc])]
    exact pythonInt_pyPadInt (by norm_num) hd0 hd1
  have hfa : pythonInt (sliceZ enc 11 (d : ℤ)) = .ok f := by
    have hform : enc = (a ++ '-' :: (b ++ '-' :: (c ++ ['.']))) ++ F := by
      rw [hencdef]; simp
    rw [hform, sliceZ_extract_end (a ++ '-' :: (b ++ '-' :: (c ++ ['.']))) F
      (by simp [hlena, hlenb, hlenc]) (by simp [hlenF])]
    exact pythonInt_pyPadInt hd hf0 hf1
  have hdne : (d : ℤ) ≠ 0 := by exact_mod_cast hd.ne'
  show dayFromIso A false false false false [enc] =
    .ok [(A.day_from_ymd false y m dd : ℚ) + (f : ℚ) / 10 ^ d]
  simp only [dayFromIso]
  rw [hstrip]
  split
  case h_1 heq =>
    rw [hkey] at heq
    exact absurd heq (by decide)
  case h_2 y1 m0 d0 dlen dashes heq =>
    rw [hkey,
      show isoDateFormatInfo (10, 2) = some (4, 5, 8, 2, [4, 7]) from rfl] at heq
    simp only [Option.some.injEq, Prod.mk.injEq] at heq
    obtain ⟨rfl, rfl, rfl, rfl, rfl⟩ := heq
    simp only [dayExtract]
    rw [hdotfind, hlenz]
    rw [show (if (false = true) then countWhite enc else ((0, 0) : ℕ × ℕ)) =
      ((0, 0) : ℕ × ℕ) from rfl]
    rw [show max (0 : ℤ) 10 = 10 from rfl]
    norm_num
    rw [show (11 : ℤ) + (d : ℤ) - 10 - 1 = (d : ℤ) by ring]
    simp only [List.mapM.loop, hya, hma, hda, hfa, hdne]
    simp [callDayFromYmd, bind, Except.bind, pure, Except.pure,
      List.mapM.loop, List.zip, hdne, zpow_natCast]

theorem daySecFromIso_split (A : CalendarAdapter) (ds ts : List Char)
    (Dv Sv : List ℚ)
    (hlen10 : ds.length = 10)
    (hds : ∀ x ∈ ds, x ≠ 'T' ∧ x ≠ nullCh)
    (hts : ∀ x ∈ ts, x ≠ nullCh)
    (hdays : dayFromIso A false false false false [ds] = .ok Dv)
    (hsecs : secFromIso false true false false [ts] = .ok Sv) :
    daySecFromIso A false false false false [ds ++ 'T' :: ts] =
      .ok (Dv, Sum.inr Sv) := by
  set enc := ds ++ 'T' :: ts with hencdef
  have hnonull : ∀ x ∈ enc, x ≠ nullCh := by
    intro x hx
    rw [hencdef] at hx
    simp only [List.mem_append, List.mem_cons] at hx
    rcases hx with hx | rfl | hx
    · exact (hds x hx).2
    · decide
    · exact hts x hx
  have hstrip : stripTrailingNulls enc = enc :=
    stripTrailingNulls_eq_self hnonull
  have hlenz : (enc.length : ℤ) = 11 + (ts.length : ℤ) := by
    rw [hencdef]
    simp [hlen10]
    push_cast
    ring
  have hfindT : pyFind enc 'T' = 10 := by
    unfold pyFind
    rw [hencdef]
    rw [idxFrom_append_left_none (fun x hx => by
      simp [(hds x hx).1]) _ 0]
    rw [hlen10, idxFrom_cons, if_pos (by simp)]
    norm_num
  have hdslice : sliceZ enc 0 10 = ds := by
    rw [show enc = [] ++ ds ++ ('T' :: ts) by rw [hencdef]; simp]
    exact sliceZ_extract [] ds _ (by simp) (by simp [hlen10])
  have htslice : sliceZ enc (10 + 1) ((enc.length : ℤ) - 10 - 1) = ts := by
    rw [show enc = (ds ++ ['T']) ++ ts by rw [hencdef]; simp]
    apply sliceZ_extract_end (ds ++ ['T']) ts (by simp [hlen10])
    rw [show ((ds ++ ['T']) ++ ts : List Char) = enc by rw [hencdef]; simp] 
    rw [hlenz]
    push_cast
    ring
  simp only [daySecFromIso]
  rw [hstrip, hfindT]
  rw [if_neg (show ¬((10 : ℤ) = -1) by norm_num)]
  rw [if_neg (show ¬((10 : ℤ) = -1) by norm_num)]
  rw [if_neg (show ¬((10 : ℤ) = -1) by norm_num)]
  simp only [List.map]
  rw [hdslice, htslice]
  rw [hdays]
  simp only [bind, Except.bind]
  rw [hsecs]
  simp [bind, Except.bind, pure, Except.pure]

theorem formatDayScalar_ymd4 (A : CalendarAdapter) (day2 y m dd : ℤ)
    (hymd : A.ymd_from_day false day2 = (y, m, dd)) :
    formatDayScalar A (.inl day2) "YMD" 4 "-" none false =
      .ok (pyPadInt 4 y ++ '-' :: (pyPadInt 2 m ++ '-' :: pyPadInt 2 dd)) := by
  have hred : formatDayScalar A (.inl day2) "YMD" 4 "-" none false =
      .ok (joinFields "-".toList
        [pyPadInt 4 (A.ymd_from_day false day2).1,
         pyPadInt 2 (A.ymd_from_day false day2).2.1,
         pyPadInt 2 (A.ymd_from_day false day2).2.2 ++ []]) := rfl
  rw [hred, hymd]
  show Except.ok _ = Except.ok _
  congr 1
  simp [joinFields, List.append_assoc]

theorem formatSecScalar_bias (K : ℤ) (d : ℕ) (hd : 0 < d) (hK0 : 0 ≤ K) :
    formatSecScalar (((K : ℚ) + 1 / 10) / 10 ^ d) (some (d : ℤ)) ":" "" =
      pyPadInt 2 (hmsFromSec (((K : ℚ) + 1 / 10) / 10 ^ d)).1 ++ ':' ::
        (pyPadInt 2 (hmsFromSec (((K : ℚ) + 1 / 10) / 10 ^ d)).2.1 ++ ':' ::
          (pyPadInt 2 (pyInt (hmsFromSec (((K : ℚ) + 1 / 10) / 10 ^ d)).2.2) ++
            '.' :: pyPadInt d (K % 10 ^ d))) := by
  simp only [formatSecScalar]
  rw [if_pos (show (0 : ℤ) ≤ (d : ℤ) by positivity)]
  rw [if_pos (show (0 : ℤ) < (d : ℤ) by exact_mod_cast hd)]
  rw [show ((d : ℤ)).toNat = d from Int.toNat_natCast d]
  rw [secRound_fixed d K, pyInt_bias d K hK0, frac_floor d K]
  simp [List.append_assoc]

theorem bias_precision (v : ℚ) (d : ℕ) :
    |((⌊v * 10 ^ d + 1 / 2⌋ : ℚ)) / 10 ^ d - v| ≤ 1 / (2 * 10 ^ d) := by
  have hS : (0 : ℚ) < 10 ^ d := by positivity
  have hle := Int.floor_le (v * 10 ^ d + 1 / 2)
  have hgt := Int.lt_floor_add_one (v * 10 ^ d + 1 / 2)
  have h1 : ((⌊v * 10 ^ d + 1 / 2⌋ : ℚ)) / 10 ^ d - v =
      ((⌊v * 10 ^ d + 1 / 2⌋ : ℚ) - v * 10 ^ d) / 10 ^ d := by
    field_simp
    ring
  rw [h1, abs_div, abs_of_pos hS,
    show (1 : ℚ) / (2 * 10 ^ d) = (1 / 2) / 10 ^ d by ring,
    div_le_div_iff_of_pos_right hS]
  rw [abs_le]
  constructor
  · linarith
  · linarith

theorem formatDayScalar_frac (A : CalendarAdapter) (v : ℚ) (d : ℕ)
    (y m dd : ℤ) (hd : 0 < d) (hv : 0 ≤ v)
    (hymd : A.ymd_from_day false (⌊v * 10 ^ d + 1 / 2⌋ / 10 ^ d) = (y, m, dd)) :
    formatDayScalar A (.inr v) "YMD" 4 "-" (some (d : ℤ)) false =
      .ok (pyPadInt 4 y ++ '-' :: (pyPadInt 2 m ++ '-' ::
        (pyPadInt 2 dd ++ '.' :: pyPadInt d (⌊v * 10 ^ d + 1 / 2⌋ % 10 ^ d)))) := by
  have h0le : (0 : ℤ) ≤ (d : ℤ) := by positivity
  have h0lt : (0 : ℤ) < (d : ℤ) := by exact_mod_cast hd
  have hdot : decide ((0 : ℤ) ≤ (d : ℤ)) = true := decide_eq_true h0le
  have hdlt : decide ((0 : ℤ) < (d : ℤ)) = true := decide_eq_true h0lt
  simp only [formatDayScalar]
  rw [if_neg (by decide), if_neg (by decide)]
  simp only [hdot, hdlt, Bool.true_and, if_pos h0le, if_pos h0lt,
    Int.toNat_natCast, if_true]
  simp only [pyInt_dayRound hv]
  simp only [dayRound_eq]
  simp only [frac_floor]
  simp only [hymd]
  show Except.ok _ = Except.ok _
  congr 1
  rw [show ("YMD" : String).length = 3 from rfl]
  simp [joinFields, List.append_assoc]

theorem floor_bias_pow (K : ℤ) (d : ℕ) :
    ⌊((K : ℚ) + 1 / 10) / 10 ^ d⌋ = K / 10 ^ d := by
  have := floor_int_bias_div K (10 ^ d) (by positivity)
  push_cast at this
  exact this

theorem decode_val (H M SI K : ℤ) (d : ℕ)
    (hsum : 3600 * H + 60 * M + SI = K / 10 ^ d) :
    3600 * (H : ℚ) + 60 * (M : ℚ) +
      ((SI : ℚ) + ((K % 10 ^ d : ℤ) : ℚ) / 10 ^ d) = (K : ℚ) / 10 ^ d := by
  have h1 : ((3600 * H + 60 * M + SI : ℤ) : ℚ) = ((K / 10 ^ d : ℤ) : ℚ) :=
    congrArg (fun z : ℤ => (z : ℚ)) hsum
  push_cast at h1
  rw [show 3600 * (H : ℚ) + 60 * (M : ℚ) +
      ((SI : ℚ) + ((K % 10 ^ d : ℤ) : ℚ) / 10 ^ d) =
      (3600 * (H : ℚ) + 60 * (M : ℚ) + (SI : ℚ)) +
        ((K % 10 ^ d : ℤ) : ℚ) / 10 ^ d by ring, h1]
  exact ediv_emod_sum_q K d

set_option maxHeartbeats 1600000 in
theorem daysec_roundtrip_master (A : CalendarAdapter) (dayO day2 : ℤ)
    (sec : ℚ) (d : ℕ) (K : ℤ) (y m dd : ℤ)
    (hd : 0 < d) (hK0 : 0 ≤ K) (hK1 : K < 86401 * 10 ^ d)
    (hymd : A.ymd_from_day false day2 = (y, m, dd))
    (hy0 : 0 ≤ y) (hy1 : y < 10 ^ 4) (hm0 : 0 ≤ m) (hm1 : m < 10 ^ 2)
    (hdd0 : 0 ≤ dd) (hdd1 : dd < 10 ^ 2)
    (hinv : A.day_from_ymd false y m dd = day2)
    (hday2 : day2 = (if A.seconds_on_day (dayO : ℚ) ≤ daySecRound d sec
             then dayO + 1 else dayO))
    (hsec2 : (if A.seconds_on_day (dayO : ℚ) ≤ daySecRound d sec
             then daySecRound d sec - A.seconds_on_day (dayO : ℚ)
             else daySecRound d sec) = ((K : ℚ) + 1 / 10) / 10 ^ d) :
    Except.bind (formatDaySecScalar A dayO sec "YMDT" 4 "-" "T" ":"
        (some (d : ℤ)) "" false)
        (fun s => daySecFromIso A false false false false [s]) =
      .ok ([(day2 : ℚ)], Sum.inr [(K : ℚ) / 10 ^ d]) := by
  have hKq : (0 : ℚ) ≤ (K : ℚ) := by exact_mod_cast hK0
  have hx0 : (0 : ℚ) ≤ ((K : ℚ) + 1 / 10) / 10 ^ d := by positivity
  have hx1 : ((K : ℚ) + 1 / 10) / 10 ^ d < 86401 := by
    rw [div_lt_iff₀ (by positivity)]
    have hKq1 : (K : ℚ) < 86401 * 10 ^ d := by exact_mod_cast hK1
    have : ((K : ℚ) + 1) ≤ 86401 * 10 ^ d := by
      have : (K : ℚ) + 1 ≤ ((86401 * 10 ^ d : ℤ) : ℚ) := by
        exact_mod_cast hK1
      push_cast at this
      linarith
    linarith
  obtain ⟨q1, q2, q3, q4, q5, q6, q7⟩ :=
    hms_sum (((K : ℚ) + 1 / 10) / 10 ^ d) hx0 hx1
  have hSI : pyInt (hmsFromSec (((K : ℚ) + 1 / 10) / 10 ^ d)).2.2 =
      ⌊(hmsFromSec (((K : ℚ) + 1 / 10) / 10 ^ d)).2.2⌋ := by
    unfold pyInt
    rw [if_neg (not_lt.mpr q5)]
  set H := (hmsFromSec (((K : ℚ) + 1 / 10) / 10 ^ d)).1 with hHdef
  set M := (hmsFromSec (((K : ℚ) + 1 / 10) / 10 ^ d)).2.1 with hMdef
  set s := (hmsFromSec (((K : ℚ) + 1 / 10) / 10 ^ d)).2.2 with hsdef
  set DS := pyPadInt 4 y ++ '-' :: (pyPadInt 2 m ++ '-' :: pyPadInt 2 dd)
    with hDSdef
  set TS := pyPadInt 2 H ++ ':' :: (pyPadInt 2 M ++ ':' ::
    (pyPadInt 2 (pyInt s) ++ '.' :: pyPadInt d (K % 10 ^ d))) with hTSdef
  have hen : formatDaySecScalar A dayO sec "YMDT" 4 "-" "T" ":"
      (some (d : ℤ)) "" false = .ok (DS ++ 'T' :: TS) := by
    simp only [formatDaySecScalar]
    rw [if_neg (by decide)]
    simp only [show (max (d : ℤ) 0).toNat = d from by
      rw [max_eq_left (by positivity)]; exact Int.toNat_natCast d]
    rw [show String.mk ("YMDT".toList.filter (fun c => !(c = 'T'))) =
      ("YMD" : String) from rfl]
    by_cases hc : A.seconds_on_day (dayO : ℚ) ≤ daySecRound d sec
    · rw [if_pos hc] at hday2 hsec2
      rw [if_pos hc, if_pos hc, hsec2, ← hday2]
      rw [formatDayScalar_ymd4 A day2 y m dd hymd]
      simp only [bind, Except.bind]
      rw [formatSecScalar_bias K d hd hK0]
      rw [if_neg (show ¬("YMDT".toList.headD ' ' = 'T') by decide)]
      show Except.ok _ = Except.ok _
      congr 1
      rw [hDSdef, hTSdef, hHdef, hMdef, hsdef]
      simp [List.append_assoc, one_div]
    · rw [if_neg hc] at hday2 hsec2
      rw [if_neg hc, if_neg hc, hsec2, ← hday2]
      rw [formatDayScalar_ymd4 A day2 y m dd hymd]
      simp only [bind, Except.bind]
      rw [formatSecScalar_bias K d hd hK0]
      rw [if_neg (show ¬("YMDT".toList.headD ' ' = 'T') by decide)]
      show Except.ok _ = Except.ok _
      congr 1
      rw [hDSdef, hTSdef, hHdef, hMdef, hsdef]
      simp [List.append_assoc, one_div]
  have hdayd : dayFromIso A false false false false [DS] =
      .ok [(day2 : ℚ)] := by
    have := dayFromIso_ymd10 A y m dd hy0 hy1 hm0 hm1 hdd0 hdd1
    rw [hinv] at this
    exact this
  have hsecd : secFromIso false true false false [TS] =
      .ok [(K : ℚ) / 10 ^ d] := by
    have hdec := secFromIso_decode H M ⌊s⌋ (K % 10 ^ d) d hd
      q1 (by omega) q3 (by omega) (Int.floor_nonneg.mpr q5) (by omega)
      (Int.emod_nonneg _ (by positivity)) (Int.emod_lt_of_pos _ (by positivity))
    rw [hTSdef, hSI]
    rw [hdec]
    congr 1
    rw [decode_val H M ⌊s⌋ K d (q7.trans (floor_bias_pow K d))]
  rw [hen]
  show daySecFromIso A false false false false [DS ++ 'T' :: TS] = _
  apply daySecFromIso_split A DS TS [(day2 : ℚ)] [(K : ℚ) / 10 ^ d]
  · rw [hDSdef]
    simp [pyPadInt_length hy0 hy1, pyPadInt_length hm0 hm1,
      pyPadInt_length hdd0 hdd1]
  · intro x hx
    rw [hDSdef] at hx
    simp only [List.mem_append, List.mem_cons] at hx
    have hdig : isDigitCh x = true ∨ x = '-' := by
      rcases hx with hx | rfl | hx | rfl | hx
      · exact Or.inl (mem_pyPadInt hy0 hy1 hx)
      · exact Or.inr rfl
      · exact Or.inl (mem_pyPadInt hm0 hm1 hx)
      · exact Or.inr rfl
      · exact Or.inl (mem_pyPadInt hdd0 hdd1 hx)
    rcases hdig with hdig | rfl
    · exact ⟨isDigitCh_ne hdig (by decide), digit_ne_null hdig⟩
    · exact ⟨by decide, by decide⟩
  · intro x hx
    rw [hTSdef] at hx
    simp only [List.mem_append, List.mem_cons] at hx
    have hdig : isDigitCh x = true ∨ x = ':' ∨ x = '.' := by
      rcases hx with hx | rfl | hx | rfl | hx | rfl | hx
      · exact Or.inl (mem_pyPadInt q1 (by omega) hx)
      · exact Or.inr (Or.inl rfl)
      · exact Or.inl (mem_pyPadInt q3 (by omega) hx)
      · exact Or.inr (Or.inl rfl)
      · exact Or.inl (mem_pyPadInt (by rw [hSI]; exact Int.floor_nonneg.mpr q5)
          (by rw [hSI]; omega) hx)
      · exact Or.inr (Or.inr rfl)
      · exact Or.inl (mem_pyPadInt (Int.emod_nonneg _ (by positivity))
          (Int.emod_lt_of_pos _ (by positivity)) hx)
    rcases hdig with hdig | rfl | rfl
    · exact digit_ne_null hdig
    · decide
    · decide
  · exact hdayd
  · exact hsecd

/-- Claim C1: encode/decode round trip.  (a) For a nonnegative
fractional day value and any calendar adapter that inverts
ymd_from_day at the rounded day, decoding the string produced by
format_day returns the day to within half a unit of the requested
fractional precision: the decoded value is exactly the correctly
rounded day floor(v*10^d + 1/2)/10^d, and that value is within
1/(2*10^d) of v.  (b) For day-and-seconds input whose rounded seconds
stays below the day length, decoding the encoding returns exactly
(day, rounded sec), with |rounded sec - sec| bounded by half a
resolution unit.  (c) When the seconds value rounds up to exactly the
day length, the decoded result is (day + 1, 0). -/
theorem c1_encode_decode_round_trip :
    (∀ (A : CalendarAdapter) (v : ℚ) (d : ℕ) (y m dd : ℤ),
      0 < d → 0 ≤ v →
      A.ymd_from_day false (⌊v * 10 ^ d + 1 / 2⌋ / 10 ^ d) = (y, m, dd) →
      0 ≤ y → y < 10 ^ 4 → 0 ≤ m → m < 10 ^ 2 → 0 ≤ dd → dd < 10 ^ 2 →
      A.day_from_ymd false y m dd = ⌊v * 10 ^ d + 1 / 2⌋ / 10 ^ d →
      Except.bind
          (formatDayScalar A (.inr v) "YMD" 4 "-" (some (d : ℤ)) false)
          (fun s => dayFromIso A false false false false [s]) =
        .ok [((⌊v * 10 ^ d + 1 / 2⌋ : ℚ)) / 10 ^ d] ∧
      |((⌊v * 10 ^ d + 1 / 2⌋ : ℚ)) / 10 ^ d - v| ≤ 1 / (2 * 10 ^ d)) ∧
    (∀ (A : CalendarAdapter) (day : ℤ) (sec : ℚ) (d : ℕ) (y m dd : ℤ),
      0 < d → 0 ≤ sec →
      daySecRound d sec < A.seconds_on_day (day : ℚ) →
      A.seconds_on_day (day : ℚ) ≤ 86401 →
      A.ymd_from_day false day = (y, m, dd) →
      0 ≤ y → y < 10 ^ 4 → 0 ≤ m → m < 10 ^ 2 → 0 ≤ dd → dd < 10 ^ 2 →
      A.day_from_ymd false y m dd = day →
      Except.bind
          (formatDaySecScalar A day sec "YMDT" 4 "-" "T" ":"
            (some (d : ℤ)) "" false)
          (fun s => daySecFromIso A false false false false [s]) =
        .ok ([(day : ℚ)],
          Sum.inr [((⌊sec * 10 ^ d + 1 / 2⌋ : ℚ)) / 10 ^ d]) ∧
      |((⌊sec * 10 ^ d + 1 / 2⌋ : ℚ)) / 10 ^ d - sec| ≤ 1 / (2 * 10 ^ d)) ∧
    (∀ (A : CalendarAdapter) (day : ℤ) (sec : ℚ) (d : ℕ) (sodZ y m dd : ℤ),
      0 < d → 0 ≤ sec →
      A.seconds_on_day (day : ℚ) = (sodZ : ℚ) →
      ⌊sec * 10 ^ d + 1 / 2⌋ = sodZ * 10 ^ d →
      A.ymd_from_day false (day + 1) = (y, m, dd) →
      0 ≤ y → y < 10 ^ 4 → 0 ≤ m → m < 10 ^ 2 → 0 ≤ dd → dd < 10 ^ 2 →
      A.day_from_ymd false y m dd = day + 1 →
      Except.bind
          (formatDaySecScalar A day sec "YMDT" 4 "-" "T" ":"
            (some (d : ℤ)) "" false)
          (fun s => daySecFromIso A false false false false [s]) =
        .ok ([(day : ℚ) + 1], Sum.inr [(0 : ℚ)])) := by
  refine ⟨?_, ?_, ?_⟩
  · intro A v d y m dd hd hv hymd hy0 hy1 hm0 hm1 hdd0 hdd1 hinv
    refine ⟨?_, bias_precision v d⟩
    rw [formatDayScalar_frac A v d y m dd hd hv hymd]
    show dayFromIso A false false false false [_] = _
    rw [dayFromIso_ymd10_frac A y m dd (⌊v * 10 ^ d + 1 / 2⌋ % 10 ^ d) d hd
      hy0 hy1 hm0 hm1 hdd0 hdd1 (Int.emod_nonneg _ (by positivity))
      (Int.emod_lt_of_pos _ (by positivity))]
    rw [hinv]
    rw [ediv_emod_sum_q]
  · intro A day sec d y m dd hd hsec hnr hsle hymd hy0 hy1 hm0 hm1 hdd0
      hdd1 hinv
    have hn0 : (0 : ℤ) ≤ ⌊sec * 10 ^ d + 1 / 2⌋ :=
      Int.floor_nonneg.mpr (by positivity)
    have hn1 : ⌊sec * 10 ^ d + 1 / 2⌋ < 86401 * 10 ^ d := by
      have h1 : daySecRound d sec < 86401 := lt_of_lt_of_le hnr hsle
      rw [show daySecRound d sec =
        ((⌊sec * 10 ^ d + 1 / 2⌋ : ℚ) + 1 / 10) / 10 ^ d from rfl,
        div_lt_iff₀ (by positivity)] at h1
      have h2 : ((⌊sec * 10 ^ d + 1 / 2⌋ : ℤ) : ℚ) <
          ((86401 * 10 ^ d : ℤ) : ℚ) := by
        push_cast
        linarith
      exact_mod_cast h2
    have hnle : ¬(A.seconds_on_day (day : ℚ) ≤ daySecRound d sec) :=
      not_le.mpr hnr
    refine ⟨?_, bias_precision sec d⟩
    exact daysec_roundtrip_master A day day sec d ⌊sec * 10 ^ d + 1 / 2⌋
      y m dd hd hn0 hn1 hymd hy0 hy1 hm0 hm1 hdd0 hdd1 hinv
      (by rw [if_neg hnle]) (by rw [if_neg hnle]; rfl)
  · intro A day sec d sodZ y m dd hd hsec hsod hn hymd hy0 hy1 hm0 hm1
      hdd0 hdd1 hinv
    have hle' : A.seconds_on_day (day : ℚ) ≤ daySecRound d sec := by
      rw [hsod, show daySecRound d sec =
        ((⌊sec * 10 ^ d + 1 / 2⌋ : ℚ) + 1 / 10) / 10 ^ d from rfl, hn,
        le_div_iff₀ (by positivity)]
      push_cast
      linarith
    have hmaster := daysec_roundtrip_master A day (day + 1) sec d 0
      y m dd hd le_rfl (by positivity) hymd hy0 hy1 hm0 hm1 hdd0 hdd1 hinv
      (by rw [if_pos hle'])
      (by
        rw [if_pos hle', hsod, show daySecRound d sec =
          ((⌊sec * 10 ^ d + 1 / 2⌋ : ℚ) + 1 / 10) / 10 ^ d from rfl, hn]
        push_cast
        field_simp
        ring)
    simpa using hmaster

unseal Rat.add Rat.mul Rat.inv Rat.sub in
/-- Witness for C1: the day-and-seconds round trip at day 0,
sec = 30.25, one fraction digit, on the concrete test calendar. -/
theorem c1_encode_decode_round_trip_witness :
    Except.bind
        (formatDaySecScalar testAdapter 0 (121 / 4) "YMDT" 4 "-" "T" ":"
          (some (1 : ℤ)) "" false)
        (fun s => daySecFromIso testAdapter false false false false [s]) =
      .ok ([((0 : ℤ) : ℚ)],
        Sum.inr [((⌊(121 / 4 : ℚ) * 10 ^ 1 + 1 / 2⌋ : ℚ)) / 10 ^ 1]) :=
  (c1_encode_decode_round_trip.2.1 testAdapter 0 (121 / 4) 1 2000 1 1
    (by decide) (by decide) (by decide) (by decide) (by decide) (by decide)
    (by decide) (by decide) (by decide) (by decide) (by decide) (by decide)).1

/-- Claim C8: encoding with ydigits = 2 renders the year modulo 100
(year 2099 renders as the two characters 99), and decoding the
two-digit-year layout feeds the literal two-digit value (99, not 2099)
to the calendar adapter, leaving century resolution to the caller. -/
theorem c8_two_digit_year_wraparound
    (A B : CalendarAdapter) (p : Bool) (day y mo dy : ℤ)
    (hymd : A.ymd_from_day p day = (y, mo, dy))
    (hm0 : 0 ≤ mo) (hm1 : mo < 10 ^ 2) (hd0 : 0 ≤ dy) (hd1 : dy < 10 ^ 2)
    (hv : B.valid_ymd false (y % 100) mo dy = true) :
    formatDayScalar A (.inl day) "YMD" 2 "-" none p =
      .ok (pyPadInt 2 (y % 100) ++
        '-' :: (pyPadInt 2 mo ++ '-' :: (pyPadInt 2 dy ++ []))) ∧
    (y = 2099 → pyPadInt 2 (y % 100) = ['9', '9']) ∧
    dayFromIso B true false false false
        [pyPadInt 2 (y % 100) ++
          '-' :: (pyPadInt 2 mo ++ '-' :: (pyPadInt 2 dy ++ []))] =
      .ok [(B.day_from_ymd false (y % 100) mo dy : ℚ)] := by
  obtain ⟨he0, he1⟩ := emod100_bounds y
  set a := pyPadInt 2 (y % 100) with hadef
  set b := pyPadInt 2 mo with hbdef
  set c := pyPadInt 2 dy with hcdef
  have hlena : a.length = 2 := pyPadInt_length he0 he1
  have hlenb : b.length = 2 := pyPadInt_length hm0 hm1
  have hlenc : c.length = 2 := pyPadInt_length hd0 hd1
  have hdiga : ∀ x ∈ a, isDigitCh x = true := fun x hx => mem_pyPadInt he0 he1 hx
  have hdigb : ∀ x ∈ b, isDigitCh x = true := fun x hx => mem_pyPadInt hm0 hm1 hx
  have hdigc : ∀ x ∈ c, isDigitCh x = true := fun x hx => mem_pyPadInt hd0 hd1 hx
  set enc := a ++ '-' :: (b ++ '-' :: (c ++ [])) with hencdef
  have hmem : ∀ x ∈ enc, isDigitCh x = true ∨ x = '-' := by
    intro x hx
    rw [hencdef] at hx
    simp only [List.mem_append, List.mem_cons, List.not_mem_nil, or_false] at hx
    rcases hx with hx | rfl | hx | rfl | hx
    · exact Or.inl (hdiga x hx)
    · exact Or.inr rfl
    · exact Or.inl (hdigb x hx)
    · exact Or.inr rfl
    · exact Or.inl (hdigc x hx)
  refine ⟨?_, ?_, ?_⟩
  · show formatDayScalar A (.inl day) "YMD" 2 "-" none p = .ok enc
    have hred : formatDayScalar A (.inl day) "YMD" 2 "-" none p =
        .ok (joinFields "-".toList
          [pyPadInt 2 ((A.ymd_from_day p day).1 % 100),
           pyPadInt 2 (A.ymd_from_day p day).2.1,
           pyPadInt 2 (A.ymd_from_day p day).2.2 ++ []]) := rfl
    rw [hred, hymd, hencdef, hadef, hbdef, hcdef]
    show Except.ok _ = Except.ok _
    congr 1
    simp [joinFields, List.append_assoc]
  · intro hy
    rw [hadef, hy]
    rfl
  · -- the decode direction
    have hstrip : stripTrailingNulls enc = enc :=
      stripTrailingNulls_eq_self (fun x hx => by
        rcases hmem x hx with hd | rfl
        · exact digit_ne_null hd
        · decide)
    have hlen : enc.length = 8 := by
      rw [hencdef]
      simp [hlena, hlenb, hlenc]
    have hnodot : pyFind enc '.' = -1 := by
      unfold pyFind
      rw [idxFrom_eq_none (fun x hx => by
        rcases hmem x hx with hd | rfl
        · simp [isDigitCh_ne hd (show isDigitCh '.' = false by decide)]
        · decide)]
    have hcount : enc.count '-' = 2 := by
      rw [hencdef]
      simp only [List.count_append, List.count_cons, List.count_nil,
        count_eq_zero_of_digits (show isDigitCh '-' = false by decide) hdiga,
        count_eq_zero_of_digits (show isDigitCh '-' = false by decide) hdigb,
        count_eq_zero_of_digits (show isDigitCh '-' = false by decide) hdigc]
      decide
    have hkey : dayKey false enc = (8, 2) := by
      simp only [dayKey]
      rw [hstrip, hnodot, hcount, hlen]
      simp
    have hya : pythonInt (sliceZ enc 0 2) = .ok (y % 100) := by
      have hform : enc = [] ++ a ++ ('-' :: (b ++ '-' :: (c ++ []))) := by
        rw [hencdef]
        simp
      rw [hform, sliceZ_extract [] a ('-' :: (b ++ '-' :: (c ++ [])))
        (by simp) (by simp [hlena])]
      exact pythonInt_pyPadInt (by norm_num) he0 he1
    have hma : pythonInt (sliceZ enc 3 2) = .ok mo := by
      have hform : enc = (a ++ ['-']) ++ b ++ ('-' :: (c ++ [])) := by
        rw [hencdef]
        simp
      rw [hform, sliceZ_extract (a ++ ['-']) b ('-' :: (c ++ []))
        (by simp [hlena]; try norm_num) (by simp [hlenb])]
      exact pythonInt_pyPadInt (by norm_num) hm0 hm1
    have hda : pythonInt (sliceZ enc 6 2) = .ok dy := by
      have hform : enc = (a ++ '-' :: (b ++ ['-'])) ++ c ++ [] := by
        rw [hencdef]
        simp
      rw [hform, sliceZ_extract (a ++ '-' :: (b ++ ['-'])) c []
        (by simp [hlena, hlenb]; try norm_num) (by simp [hlenc])]
      exact pythonInt_pyPadInt (by norm_num) hd0 hd1
    show dayFromIso B true false false false [enc] =
      .ok [(B.day_from_ymd false (y % 100) mo dy : ℚ)]
    simp only [dayFromIso]
    rw [hstrip]
    split
    case h_1 heq =>
      rw [hkey] at heq
      exact absurd heq (by decide)
    case h_2 y1 m0 d0 dlen dashes heq =>
      rw [hkey,
        show isoDateFormatInfo (8, 2) = some (2, 3, 6, 2, [2, 5]) from rfl] at heq
      simp only [Option.some.injEq, Prod.mk.injEq] at heq
      obtain ⟨rfl, rfl, rfl, rfl, rfl⟩ := heq
      simp only [dayExtract]
      rw [hnodot, hlen]
      norm_num
      simp only [List.mapM.loop, hya, hma, hda]
      simp [callDayFromYmd, hv, bind, Except.bind, pure, Except.pure,
        List.mapM.loop, List.zip]
/-- Claim C3: day_from_iso classifies the sample string by the key
(stripped length, dash count) through exactly the static eight-entry
table ISO_DATE_FORMAT_INFO (yyyy-mm-dd, yyyy-ddd, yy-mm-dd, yy-ddd,
yyyymmdd, yyyyddd, yymmdd, yyddd); a key outside the table raises a
FormatNotRecognized error whose message names the offending sample,
and a key inside the table routes the batch to field extraction with
the table entry. -/
theorem c3_date_layout_table :
    (isoDateFormatInfo (10, 2) = some (4, 5, 8, 2, [4, 7]) ∧
     isoDateFormatInfo (8, 1) = some (4, 0, 5, 3, [4]) ∧
     isoDateFormatInfo (8, 2) = some (2, 3, 6, 2, [2, 5]) ∧
     isoDateFormatInfo (6, 1) = some (2, 0, 3, 3, [2]) ∧
     isoDateFormatInfo (8, 0) = some (4, 4, 6, 2, []) ∧
     isoDateFormatInfo (7, 0) = some (4, 0, 4, 3, []) ∧
     isoDateFormatInfo (6, 0) = some (2, 2, 4, 2, []) ∧
     isoDateFormatInfo (5, 0) = some (2, 0, 2, 3, [])) ∧
    (∀ k : ℤ × ℕ,
      k ∉ ([(10, 2), (8, 1), (8, 2), (6, 1), (8, 0), (7, 0), (6, 0), (5, 0)] :
          List (ℤ × ℕ)) →
        isoDateFormatInfo k = none) ∧
    (∀ (A : CalendarAdapter) (validate sx strip proleptic : Bool)
        (e0 : List Char) (rest : List (List Char)),
      isoDateFormatInfo (dayKey strip e0) = none →
        dayFromIso A validate sx strip proleptic (e0 :: rest) =
          .error ("unrecognized ISO date format: \"" ++
            String.mk (stripTrailingNulls e0) ++ "\"")) ∧
    (∀ (A : CalendarAdapter) (validate sx strip proleptic : Bool)
        (e0 : List Char) (rest : List (List Char))
        (y1 m0 d0 dlen : ℕ) (dashes : List ℕ),
      isoDateFormatInfo (dayKey strip e0) = some (y1, m0, d0, dlen, dashes) →
        ∃ w0 w1 w2 kdot kend lfirst,
          dayFromIso A validate sx strip proleptic (e0 :: rest) =
            dayExtract A validate sx proleptic (e0 :: rest) y1 m0 d0 dlen
              dashes w0 w1 w2 kdot kend lfirst) := by
  refine ⟨⟨rfl, rfl, rfl, rfl, rfl, rfl, rfl, rfl⟩, ?_, ?_, ?_⟩
  · intro k hk
    simp only [isoDateFormatInfo]
    split_ifs <;> simp_all
  · intro A validate sx strip proleptic e0 rest hnone
    simp only [dayFromIso]
    split
    case h_1 heq => rfl
    case h_2 a1 a2 a3 a4 a5 heq =>
      rw [hnone] at heq
      cases heq
  · intro A validate sx strip proleptic e0 rest y1 m0 d0 dlen dashes hinfo
    simp only [dayFromIso]
    split
    case h_1 heq =>
      rw [hinfo] at heq
      cases heq
    case h_2 a1 a2 a3 a4 a5 heq =>
      rw [hinfo] at heq
      simp only [Option.some.injEq, Prod.mk.injEq] at heq
      obtain ⟨rfl, rfl, rfl, rfl, rfl⟩ := heq
      exact ⟨_, _, _, _, _, _, rfl⟩

/-- Witness for C3: a two-character sample is outside the table and is
rejected with an error naming it, while a dashed ten-character sample
is routed to extraction with the yyyy-mm-dd entry. -/
theorem c3_date_layout_table_witness :
    dayFromIso testAdapter true false false false [['h', 'i']] =
      .error ("unrecognized ISO date format: \"" ++
        String.mk (stripTrailingNulls ['h', 'i']) ++ "\"") ∧
    ∃ w0 w1 w2 kdot kend lfirst,
      dayFromIso testAdapter true false false false
          [['2', '0', '0', '0', '-', '0', '1', '-', '0', '2']] =
        dayExtract testAdapter true false false
          [['2', '0', '0', '0', '-', '0', '1', '-', '0', '2']] 4 5 8 2 [4, 7]
          w0 w1 w2 kdot kend lfirst :=
  ⟨c3_date_layout_table.2.2.1 testAdapter true false false false
      ['h', 'i'] [] (by decide),
   c3_date_layout_table.2.2.2 testAdapter true false false false
      ['2', '0', '0', '0', '-', '0', '1', '-', '0', '2'] [] 4 5 8 2 [4, 7]
      (by decide)⟩

/-- Claim C9: when the first record has no T and no interior blank
separator, day_sec_from_iso returns the date parse paired with the
scalar integer 0 as seconds, and the date is parsed with only validate
and strip forwarded: the syntax and proleptic options of the caller do
not appear in the result (day_from_iso runs with syntax = false and
proleptic = false). -/
theorem c9_date_only_path
    (A : CalendarAdapter) (validate sx strip proleptic : Bool)
    (e0 : List Char) (rest : List (List Char))
    (hT : pyFind (stripTrailingNulls e0) 'T' = -1)
    (hB : pyFindFrom (stripTrailingNulls e0) ' '
            (countWhite (stripTrailingNulls e0)).1 = -1 ∨
          pyFindFrom (stripTrailingNulls e0) ' '
            (countWhite (stripTrailingNulls e0)).1 =
            ((stripTrailingNulls e0).length : ℤ) -
              ((countWhite (stripTrailingNulls e0)).2 : ℤ)) :
    daySecFromIso A validate sx strip proleptic (e0 :: rest) =
      (dayFromIso A validate false strip false (e0 :: rest)).map
        (fun ds => (ds, Sum.inl 0)) := by
  simp only [daySecFromIso]
  rw [hT]
  rcases hB with h | h <;> rw [h] <;> split_ifs <;> simp_all

/-- Claim C7: sec_from_iso accepts at most two colons, at most one
decimal point; with colons it derives the 2-character-wide fields from
the colon positions, rejecting any other field width, and with no
colon it divides the width into at most three 2-character groups,
rejecting an odd or too-large width; each rejection is a
FormatNotRecognized error naming the sample, and a layout error
propagates out of sec_from_iso unchanged. -/
theorem c7_time_layout_inference :
    (∀ (first : List Char) (w0 kend : ℤ), 2 < (idxsOf first ':').length →
      secLayout first w0 kend =
        .error ("unrecognized ISO time format; too many colons: \"" ++
          String.mk first ++ "\"")) ∧
    (∀ (first : List Char) (w0 kend : ℤ), (idxsOf first ':').length ≤ 2 →
      1 < (idxsOf first '.').length →
      secLayout first w0 kend =
        .error ("unrecognized ISO time format; too many decimals: \"" ++
          String.mk first ++ "\"")) ∧
    (∀ (first : List Char) (w0 kend : ℤ), (idxsOf first ':').length ≤ 2 →
      (idxsOf first '.').length ≤ 1 → (idxsOf first ':').length ≠ 0 →
      (List.zipWith (fun a b => a - b)
        (idxsOf first ':' ++
          [if (idxsOf first '.').headD 0 = 0 then kend
           else (idxsOf first '.').headD 0])
        (((w0 - 1) :: idxsOf first ':').map (· + 1))).any
          (fun w => !(w = 2)) = true →
      secLayout first w0 kend =
        .error ("invalid field width in ISO time: \"" ++
          String.mk first ++ "\"")) ∧
    (∀ (first : List Char) (w0 kend : ℤ), (idxsOf first ':').length = 0 →
      (idxsOf first '.').length ≤ 1 →
      (3 < Int.fdiv ((if (idxsOf first '.').headD 0 = 0 then kend
            else (idxsOf first '.').headD 0) - w0) 2 ∨
       ¬((if (idxsOf first '.').headD 0 = 0 then kend
            else (idxsOf first '.').headD 0) - w0 =
          Int.fdiv ((if (idxsOf first '.').headD 0 = 0 then kend
            else (idxsOf first '.').headD 0) - w0) 2 * 2)) →
      secLayout first w0 kend =
        .error ("invalid text width in ISO time format: \"" ++
          String.mk first ++ "\"")) ∧
    (∀ (first : List Char) (w0 kend : ℤ), (idxsOf first ':').length ≤ 2 →
      (idxsOf first '.').length ≤ 1 → (idxsOf first ':').length ≠ 0 →
      (List.zipWith (fun a b => a - b)
        (idxsOf first ':' ++
          [if (idxsOf first '.').headD 0 = 0 then kend
           else (idxsOf first '.').headD 0])
        (((w0 - 1) :: idxsOf first ':').map (· + 1))).any
          (fun w => !(w = 2)) = false →
      secLayout first w0 kend =
        .ok (((w0 - 1) :: idxsOf first ':').map (· + 1), idxsOf first ':',
          (idxsOf first '.').headD 0)) ∧
    (∀ (validate leapsecs strip sx : Bool) (e0 : List Char)
        (rest : List (List Char)) (e : String),
      secLayout (secGeometry strip e0).first (secGeometry strip e0).w0
          (secGeometry strip e0).kend = .error e →
      secFromIso validate leapsecs strip sx (e0 :: rest) = .error e) := by
  refine ⟨?_, ?_, ?_, ?_, ?_, ?_⟩
  · intro first w0 kend h
    simp only [secLayout]
    rw [if_pos h]
  · intro first w0 kend h1 h2
    simp only [secLayout]
    rw [if_neg (not_lt.mpr h1), if_pos h2]
  · intro first w0 kend h1 h2 h3 h4
    simp only [secLayout]
    rw [if_neg (not_lt.mpr h1), if_neg (not_lt.mpr h2), if_pos h3, if_pos h4]
  · intro first w0 kend h1 h2 h3
    simp only [secLayout]
    rw [if_neg (by rw [h1]; norm_num), if_neg (not_lt.mpr h2),
      if_neg (by rw [h1]; simp), if_pos h3]
  · intro first w0 kend h1 h2 h3 h4
    simp only [secLayout]
    rw [if_neg (not_lt.mpr h1), if_neg (not_lt.mpr h2), if_pos h3,
      if_neg (by rw [h4]; simp)]
  · intro validate leapsecs strip sx e0 rest e h
    simp only [secFromIso]
    split
    case h_1 e1 heq =>
      rw [h] at heq
      exact congrArg Except.error (Except.error.inj heq).symm
    case h_2 khms kcolons kdot heq =>
      rw [h] at heq
      cases heq

/-- Witness for C7: a three-colon sample is rejected by the layout
inference, and the error propagates out of sec_from_iso naming the
sample. -/
theorem c7_time_layout_inference_witness :
    secLayout ['1', ':', '2', ':', '3', ':', '4'] 0 7 =
      .error ("unrecognized ISO time format; too many colons: \"" ++
        String.mk ['1', ':', '2', ':', '3', ':', '4'] ++ "\"") ∧
    secFromIso true true false false [['1', ':', '2', ':', '3', ':', '4']] =
      .error ("unrecognized ISO time format; too many colons: \"" ++
        String.mk ['1', ':', '2', ':', '3', ':', '4'] ++ "\"") :=
  ⟨c7_time_layout_inference.1 ['1', ':', '2', ':', '3', ':', '4'] 0 7
      (by decide),
   c7_time_layout_inference.2.2.2.2.2 true true false false
      ['1', ':', '2', ':', '3', ':', '4'] []
      ("unrecognized ISO time format; too many colons: \"" ++
        String.mk ['1', ':', '2', ':', '3', ':', '4'] ++ "\"")
      rfl⟩

unseal Rat.add Rat.mul Rat.inv Rat.sub in
/-- Claim C5: with the syntax option enabled, every separator byte of
every record of the batch must equal its expected literal, padding must
be blank, the null terminator present, and no blank or minus may sit
inside a numeric field; a violating record anywhere in the batch (also
the second one) raises a SyntaxError naming the constraint, before any
calendar conversion.  With the option disabled, mismatched punctuation
in records other than the first goes undetected and parsing succeeds.
The first conjunct is the general batch statement for the dash bytes;
the remaining conjuncts exhibit each constraint class on two-record
batches, universally over the calendar adapter. -/
theorem c5_strict_syntax_verification :
    (∀ (A : CalendarAdapter) (validate p : Bool) (elems : List (List Char))
        (y1 m0 d0 dlen k0 : ℕ) (ds : List ℕ) (w0 w1 w2 kdot kend lfirst : ℤ),
      (∃ v, elems.mapM (fun e => pythonInt (sliceZ e w0 (y1 : ℤ))) = .ok v) →
      (∃ v, elems.mapM (fun e => pythonInt (sliceZ e (w0 + d0) (dlen : ℤ))) =
        .ok v) →
      (m0 ≠ 0 →
        ∃ v, elems.mapM (fun e => pythonInt (sliceZ e (w0 + m0) 2)) = .ok v) →
      ((decide (kdot ≠ 0) && decide (kend - kdot - 1 ≠ 0)) = true →
        ∃ v, elems.mapM
          (fun e => pythonInt (sliceZ e (kdot + 1) (kend - kdot - 1))) = .ok v) →
      elems.any (fun e => !(sliceZ e (w0 + k0) 1 = ['-'])) = true →
      dayExtract A validate true p elems y1 m0 d0 dlen (k0 :: ds)
        w0 w1 w2 kdot kend lfirst = .error "inconsistent dashes in ISO date") ∧
    (∀ A : CalendarAdapter,
      dayFromIso A false true false false
          [['2','0','0','0','-','0','1','-','0','1'],
           ['2','0','0','0','/','0','1','/','0','1']] =
        .error "inconsistent dashes in ISO date") ∧
    (∀ A : CalendarAdapter,
      dayFromIso A false false false false
          [['2','0','0','0','-','0','1','-','0','1'],
           ['2','0','0','0','/','0','1','/','0','1']] =
        .ok [((A.day_from_ymd false 2000 1 1 : ℤ) : ℚ),
             ((A.day_from_ymd false 2000 1 1 : ℤ) : ℚ)]) ∧
    (∀ A : CalendarAdapter,
      dayFromIso A false true true false
          [[' ','2','0','0','0','-','0','1','-','0','1'],
           ['x','2','0','0','0','-','0','1','-','0','1']] =
        .error "inconsistent white space in ISO date") ∧
    (∀ A : CalendarAdapter,
      dayFromIso A false true false false
          [('2' :: '0' :: '0' :: '0' :: '-' :: '0' :: '1' :: '-' :: '0' :: '1' :: [nullCh]),
           ['2','0','0','0','-','0','1','-','0','1','X']] =
        .error "inconsistent null termination in ISO date") ∧
    (∀ A : CalendarAdapter,
      dayFromIso A false true false false
          [['2','0','0','0','-','0','1','-','0','1'],
           ['2','0','0','0','-','0','1','-',' ','1']] =
        .error "invalid blank character in ISO date") ∧
    (∀ A : CalendarAdapter,
      dayFromIso A false true false false
          [['2','0','0','0','-','0','1','-','0','1'],
           ['2','0','0','0','-','0','1','-','-','1']] =
        .error "invalid negative value in ISO date") ∧
    (secFromIso false true false true
        [['1','2',':','3','4',':','5','6'],
         ['1','2','.','3','4',':','5','6']] =
      .error "inconsistent colons in ISO time") ∧
    (secFromIso false true false false
        [['1','2',':','3','4',':','5','6'],
         ['1','2','.','3','4',':','5','6']] =
      .ok [(45296 : ℚ), (45296 : ℚ)]) := by
  refine ⟨?_, fun A => rfl, fun A => rfl, fun A => rfl, fun A => rfl,
    fun A => rfl, fun A => rfl, rfl, by decide⟩
  intro A validate p elems y1 m0 d0 dlen k0 ds w0 w1 w2 kdot kend lfirst
    h1 h2 h3 h4 hviol
  obtain ⟨vy, hy⟩ := h1
  obtain ⟨vd, hd⟩ := h2
  simp only [dayExtract, hy, hd]
  simp only [bind, Except.bind]
  have hcond : (true && match (k0 :: ds).get? 0 with
      | some k => elems.any fun e => !decide (sliceZ e (w0 + (k : ℤ)) 1 = ['-'])
      | none => false) = true := by
    show (true && (elems.any fun e =>
      !decide (sliceZ e (w0 + (k0 : ℤ)) 1 = ['-']))) = true
    simpa using hviol
  by_cases hm0 : m0 ≠ 0
  · obtain ⟨vm, hm⟩ := h3 hm0
    rw [if_pos hm0]
    simp only [hm, bind, Except.bind]
    by_cases hfp : (decide (kdot ≠ 0) && decide (kend - kdot - 1 ≠ 0)) = true
    · obtain ⟨vf, hf⟩ := h4 hfp
      rw [if_pos hfp]
      simp only [hf, bind, Except.bind]
      rw [if_pos hcond]
    · rw [if_neg hfp]
      try simp only [bind, Except.bind, pure, Except.pure]
      rw [if_pos hcond]
  · rw [if_neg hm0]
    try simp only [bind, Except.bind, pure, Except.pure]
    by_cases hfp : (decide (kdot ≠ 0) && decide (kend - kdot - 1 ≠ 0)) = true
    · obtain ⟨vf, hf⟩ := h4 hfp
      rw [if_pos hfp]
      simp only [hf, bind, Except.bind]
      rw [if_pos hcond]
    · rw [if_neg hfp]
      try simp only [bind, Except.bind, pure, Except.pure]
      rw [if_pos hcond]

/-- Witness for C5: the general dash statement applied to the concrete
two-record batch whose second record uses slashes. -/
theorem c5_strict_syntax_verification_witness :
    dayExtract testAdapter false true false
        [['2','0','0','0','-','0','1','-','0','1'],
         ['2','0','0','0','/','0','1','/','0','1']] 4 5 8 2 [4, 7]
        0 0 0 0 10 10 = .error "inconsistent dashes in ISO date" :=
  c5_strict_syntax_verification.1 testAdapter false false
    [['2','0','0','0','-','0','1','-','0','1'],
     ['2','0','0','0','/','0','1','/','0','1']] 4 5 8 2 4 [7] 0 0 0 0 10 10
    ⟨[2000, 2000], by decide⟩ ⟨[1, 1], by decide⟩
    (fun _ => ⟨[1, 1], by decide⟩) (fun h => absurd h (by decide))
    (by decide)

/-! ## Claim C2: leap-second-aware day rollover in format_day_sec -/

lemma zip_get? {α β : Type} :
    ∀ (l₁ : List α) (l₂ : List β) (i : ℕ) (a : α) (b : β),
      l₁.get? i = some a → l₂.get? i = some b →
      (l₁.zip l₂).get? i = some (a, b) := by
  intro l₁
  induction l₁ with
  | nil => intro l₂ i a b h1 h2; simp at h1
  | cons x t ih =>
    intro l₂ i a b h1 h2
    cases l₂ with
    | nil => simp at h2
    | cons y t2 =>
      cases i with
      | zero =>
        simp only [List.get?] at h1 h2
        obtain rfl := Option.some.injEq _ _ ▸ h1
        obtain rfl := Option.some.injEq _ _ ▸ h2
        rfl
      | succ n =>
        simp only [List.get?] at h1 h2 ⊢
        exact ih t2 n a b h1 h2

unseal Rat.add Rat.mul Rat.inv Rat.sub in
/-- Claim C2: in format_day_sec, after the seconds value is bias-rounded
to the configured fractional resolution, every element whose rounded
seconds reaches that element's seconds_on_day(day) has its day number
incremented by one and its seconds reduced by that day's length; this
holds element-wise across a whole batch (first conjunct, over
rolloverBatch at every index), and on the scalar path encoding day = 0,
sec = 86400 with order = "YMDT" on a calendar whose day 0 lasts exactly
86400 seconds yields "2000-01-02T00:00:00" (second conjunct, for every
adapter mapping day 1 to 2000-01-02). -/
theorem c2_leap_second_rollover :
    (∀ (A : CalendarAdapter) (digits : Option ℤ) (days : List ℤ)
        (secs : List ℚ) (i : ℕ) (day : ℤ) (sec : ℚ) (dU : ℕ),
      days.get? i = some day → secs.get? i = some sec →
      dU = (match digits with | some d => (max d 0).toNat | none => 0) →
      (rolloverBatch A digits days secs).1.get? i =
        some (if A.seconds_on_day (day : ℚ) ≤ daySecRound dU sec
              then day + 1 else day) ∧
      (rolloverBatch A digits days secs).2.get? i =
        some (if A.seconds_on_day (day : ℚ) ≤ daySecRound dU sec
              then daySecRound dU sec - A.seconds_on_day (day : ℚ)
              else daySecRound dU sec)) ∧
    (∀ A : CalendarAdapter,
      A.seconds_on_day 0 = 86400 →
      A.ymd_from_day false 1 = (2000, 1, 2) →
      formatDaySecScalar A 0 86400 "YMDT" 4 "-" "T" ":" none "" false =
        .ok ("2000-01-02T00:00:00".toList)) := by
  constructor
  · intro A digits days secs i day sec dU h1 h2 hdU
    simp only [rolloverBatch]
    rw [← hdU]
    constructor
    · rw [List.get?_map, List.get?_map, zip_get? days secs i day sec h1 h2]
      simp only [Option.map_some']
      split
      next h => rfl
      next h => rfl
    · rw [List.get?_map, List.get?_map, zip_get? days secs i day sec h1 h2]
      simp only [Option.map_some']
      split
      next h => rfl
      next h => rfl
  · intro A h1 h2
    have hday : formatDayScalar A (.inl 1) "YMD" 4 "-" none false =
        .ok ("2000-01-02".toList) := by
      rw [formatDayScalar_ymd4 A 1 2000 1 2 h2]
      rfl
    have hround : daySecRound 0 (86400 : ℚ) = 864001 / 10 := by decide
    have hle : A.seconds_on_day ((0 : ℤ) : ℚ) ≤ daySecRound 0 (86400 : ℚ) := by
      rw [show ((0 : ℤ) : ℚ) = (0 : ℚ) from by norm_num, h1, hround]
      norm_num
    have hsec2 : daySecRound 0 (86400 : ℚ) - A.seconds_on_day ((0 : ℤ) : ℚ) =
        1 / 10 := by
      rw [show ((0 : ℤ) : ℚ) = (0 : ℚ) from by norm_num, h1, hround]
      norm_num
    have hsec : formatSecScalar (1 / 10) none ":" "" = "00:00:00".toList := by
      decide
    simp only [formatDaySecScalar]
    rw [if_neg (by decide)]
    rw [if_pos hle, if_pos hle]
    rw [show ((0 : ℤ) + 1) = (1 : ℤ) from rfl]
    rw [hsec2]
    rw [show String.mk ("YMDT".toList.filter (fun c => !(c = 'T'))) =
        ("YMD" : String) from rfl]
    rw [hday]
    simp only [bind, Except.bind]
    rw [if_neg (by decide)]
    rw [hsec]
    rfl

/-- Witness for C2: the batch conjunct at a two-element batch on the
test calendar, where the second element rolls over and the first does
not. -/
theorem c2_leap_second_rollover_witness :
    (rolloverBatch testAdapter none [0, 0] [30, 86400]).1.get? 1 =
      some (if testAdapter.seconds_on_day ((0 : ℤ) : ℚ) ≤
              daySecRound 0 86400 then 0 + 1 else 0) ∧
    (rolloverBatch testAdapter none [0, 0] [30, 86400]).2.get? 1 =
      some (if testAdapter.seconds_on_day ((0 : ℤ) : ℚ) ≤
              daySecRound 0 86400
            then daySecRound 0 86400 - testAdapter.seconds_on_day ((0 : ℤ) : ℚ)
            else daySecRound 0 86400) :=
  c2_leap_second_rollover.1 testAdapter none [0, 0] [30, 86400] 1 0 86400 0
    rfl rfl rfl

/-! ## Claim C4: caller-supplied buffers are null-filled, not preserved -/

lemma map_const_replicate {α β : Type} (l : List α) (c : β) :
    l.map (fun _ => c) = List.replicate l.length c :=
  List.map_const' l c

lemma mapM_loop_ok_length {α β : Type} {f : α → Except String β} :
    ∀ (l : List α) (acc r : List β),
      List.mapM.loop f l acc = .ok r → r.length = l.length + acc.length := by
  intro l
  induction l with
  | nil =>
    intro acc r h
    simp only [List.mapM.loop, pure, Except.pure, Except.ok.injEq] at h
    subst h
    simp
  | cons a t ih =>
    intro acc r h
    simp only [List.mapM.loop] at h
    cases hfa : f a with
    | error e => rw [hfa] at h; simp [bind, Except.bind] at h
    | ok x =>
      rw [hfa] at h
      simp only [bind, Except.bind] at h
      have := ih (x :: acc) r h
      simp only [List.length_cons] at this ⊢
      omega

lemma mapM_ok_length {α β : Type} {f : α → Except String β} {l : List α}
    {r : List β} (h : l.mapM f = .ok r) : r.length = l.length := by
  have := mapM_loop_ok_length l [] r h
  simpa using this

/-- Counterexample to claim C4 as stated: writing one date record into a
caller-supplied two-element buffer previously filled with 'X' does NOT
leave the bytes beyond the record untouched.  The two bytes of the first
record past the 10-character date, and the whole second element beyond
the batch, come back as null characters, not as the caller's 'X'
(formatter.py line 189 fills the entire buffer with nulls
unconditionally). -/
theorem c4_frame_condition_counterexample :
    formatDayBuffer testAdapter [0] "YMD" 4 "-" false
        ⟨12, [List.replicate 12 'X', List.replicate 12 'X']⟩ =
      .ok ⟨12, [['2','0','0','0','-','0','1','-','0','1', nullCh, nullCh],
                List.replicate 12 nullCh]⟩ ∧
    nullCh ≠ 'X' :=
  ⟨rfl, by decide⟩

/-- Claim C4 amended: on a successful write into a caller-supplied
buffer, format_day and format_sec first fill the WHOLE buffer with null
characters and then write the synthesized records, so the result depends
on the caller's buffer only through its itemsize and element count
(never through its contents); the shape checks hold, the output keeps
the buffer's shape, every element beyond the batch is entirely null, and
every written record is the synthesized text padded with nulls to the
itemsize. -/
theorem c4_caller_buffer_null_filled :
    (∀ (A : CalendarAdapter) (days : List ℤ) (order : String) (ydigits : ℕ)
        (dash : String) (p : Bool) (b1 b2 out : CharBuffer),
      b1.itemsize = b2.itemsize → b1.elems.length = b2.elems.length →
      formatDayBuffer A days order ydigits dash p b1 = .ok out →
      formatDayBuffer A days order ydigits dash p b2 = .ok out ∧
      days.length ≤ b1.elems.length ∧
      dayRecordWidth order.length ydigits dash.length ≤ b1.itemsize ∧
      out.itemsize = b1.itemsize ∧
      out.elems.length = b1.elems.length ∧
      (∀ x ∈ out.elems.drop days.length,
        x = List.replicate b1.itemsize nullCh) ∧
      (∀ x ∈ out.elems.take days.length,
        ∃ r, x = r ++ List.replicate (b1.itemsize - r.length) nullCh)) ∧
    (∀ (secs : List ℚ) (digits : Option ℤ) (colon suffix : String)
        (b1 b2 out : CharBuffer),
      b1.itemsize = b2.itemsize → b1.elems.length = b2.elems.length →
      formatSecBuffer secs digits colon suffix b1 = .ok out →
      formatSecBuffer secs digits colon suffix b2 = .ok out ∧
      secs.length ≤ b1.elems.length ∧
      secRecordWidth digits colon.length suffix.length ≤ b1.itemsize ∧
      out.itemsize = b1.itemsize ∧
      out.elems.length = b1.elems.length ∧
      (∀ x ∈ out.elems.drop secs.length,
        x = List.replicate b1.itemsize nullCh) ∧
      (∀ x ∈ out.elems.take secs.length,
        ∃ r, x = r ++ List.replicate (b1.itemsize - r.length) nullCh)) := by
  constructor
  · intro A days order ydigits dash p b1 b2 out hsize hlen hout
    have hinv : formatDayBuffer A days order ydigits dash p b2 =
        formatDayBuffer A days order ydigits dash p b1 := by
      simp only [formatDayBuffer, map_const_replicate, List.length_drop]
      rw [hsize, hlen]
    refine ⟨hinv.trans hout, ?_⟩
    simp only [formatDayBuffer] at hout
    split at hout
    · exact Except.noConfusion hout
    split at hout
    · exact Except.noConfusion hout
    split at hout
    · exact Except.noConfusion hout
    next h3 =>
    split at hout
    · exact Except.noConfusion hout
    next h4 =>
    simp only [bind, Except.bind] at hout
    split at hout
    · exact Except.noConfusion hout
    next v heq =>
    simp only [Except.ok.injEq] at hout
    subst hout
    have hwl : (v.map (fun r =>
        r ++ List.replicate (b1.itemsize - r.length) nullCh)).length =
        days.length := by
      rw [List.length_map, mapM_ok_length heq]
    refine ⟨by omega, by omega, rfl, ?_, ?_, ?_⟩
    · simp only [List.length_append, List.length_map, List.length_drop, hwl]
      omega
    · intro x hx
      rw [show days.length = (v.map (fun r =>
            r ++ List.replicate (b1.itemsize - r.length) nullCh)).length
          from hwl.symm, List.drop_left] at hx
      obtain ⟨y, hy, hxy⟩ := List.mem_map.mp hx
      exact hxy.symm
    · intro x hx
      rw [show days.length = (v.map (fun r =>
            r ++ List.replicate (b1.itemsize - r.length) nullCh)).length
          from hwl.symm, List.take_left] at hx
      obtain ⟨r, hr, hxr⟩ := List.mem_map.mp hx
      exact ⟨r, hxr.symm⟩
  · intro secs digits colon suffix b1 b2 out hsize hlen hout
    have hinv : formatSecBuffer secs digits colon suffix b2 =
        formatSecBuffer secs digits colon suffix b1 := by
      simp only [formatSecBuffer, map_const_replicate, List.length_drop]
      rw [hsize, hlen]
    refine ⟨hinv.trans hout, ?_⟩
    simp only [formatSecBuffer] at hout
    split at hout
    · exact Except.noConfusion hout
    next h1 =>
    split at hout
    · exact Except.noConfusion hout
    next h2 =>
    simp only [bind, Except.bind] at hout
    split at hout
    · exact Except.noConfusion hout
    next v heq =>
    simp only [Except.ok.injEq] at hout
    subst hout
    have hwl : (v.map (fun r =>
        r ++ List.replicate (b1.itemsize - r.length) nullCh)).length =
        secs.length := by
      rw [List.length_map, mapM_ok_length heq]
    refine ⟨by omega, by omega, rfl, ?_, ?_, ?_⟩
    · simp only [List.length_append, List.length_map, List.length_drop, hwl]
      omega
    · intro x hx
      rw [show secs.length = (v.map (fun r =>
            r ++ List.replicate (b1.itemsize - r.length) nullCh)).length
          from hwl.symm, List.drop_left] at hx
      obtain ⟨y, hy, hxy⟩ := List.mem_map.mp hx
      exact hxy.symm
    · intro x hx
      rw [show secs.length = (v.map (fun r =>
            r ++ List.replicate (b1.itemsize - r.length) nullCh)).length
          from hwl.symm, List.take_left] at hx
      obtain ⟨r, hr, hxr⟩ := List.mem_map.mp hx
      exact ⟨r, hxr.symm⟩

/-- Witness for C4: the content-irrelevance conclusion applied to a
concrete one-record batch, transporting a result computed on an
X-filled buffer to an equally shaped buffer with different contents. -/
theorem c4_caller_buffer_null_filled_witness :
    formatDayBuffer testAdapter [0] "YMD" 4 "-" false
        ⟨12, [List.replicate 12 'A', List.replicate 12 'B']⟩ =
      .ok ⟨12, [['2','0','0','0','-','0','1','-','0','1', nullCh, nullCh],
                List.replicate 12 nullCh]⟩ :=
  (c4_caller_buffer_null_filled.1 testAdapter [0] "YMD" 4 "-" false
      ⟨12, [List.replicate 12 'X', List.replicate 12 'X']⟩
      ⟨12, [List.replicate 12 'A', List.replicate 12 'B']⟩
      ⟨12, [['2','0','0','0','-','0','1','-','0','1', nullCh, nullCh],
            List.replicate 12 nullCh]⟩
      rfl rfl rfl).1

/-- Witness for C9: a plain date batch decodes to (days, scalar 0) with
syntax and proleptic inert. -/
theorem c9_date_only_path_witness :
    daySecFromIso testAdapter true true false true
        [['2', '0', '0', '0', '-', '0', '1', '-', '0', '2']] =
      (dayFromIso testAdapter true false false false
          [['2', '0', '0', '0', '-', '0', '1', '-', '0', '2']]).map
        (fun ds => (ds, Sum.inl 0)) :=
  c9_date_only_path testAdapter true true false true
    ['2', '0', '0', '0', '-', '0', '1', '-', '0', '2'] []
    (by decide) (Or.inl (by decide))

/-- Witness for C8: day 0 of the year-2099 adapter encodes with a
two-character 99 year and decodes back through the literal year 99. -/
theorem c8_two_digit_year_wraparound_witness :
    formatDayScalar adapter2099 (.inl 0) "YMD" 2 "-" none false =
      .ok (pyPadInt 2 ((2099 : ℤ) % 100) ++
        '-' :: (pyPadInt 2 12 ++ '-' :: (pyPadInt 2 1 ++ []))) ∧
    ((2099 : ℤ) = 2099 → pyPadInt 2 ((2099 : ℤ) % 100) = ['9', '9']) ∧
    dayFromIso adapter2099 true false false false
        [pyPadInt 2 ((2099 : ℤ) % 100) ++
          '-' :: (pyPadInt 2 12 ++ '-' :: (pyPadInt 2 1 ++ []))] =
      .ok [(adapter2099.day_from_ymd false ((2099 : ℤ) % 100) 12 1 : ℚ)] :=
  c8_two_digit_year_wraparound adapter2099 adapter2099 false 0 2099 12 1
    (by decide) (by decide) (by decide) (by decide) (by decide) (by decide)

/-- Witness for C6 at digits = 2 and value 157/50 = 3.14. -/
theorem c6_rounding_bias_witness :
    pyInt (dayRound 2 (157 / 50)) = ⌊(157 / 50 : ℚ) * 10 ^ 2 + 1 / 2⌋ / 10 ^ 2 ∧
    fracDigitsLoop (dayRound 2 (157 / 50) -
        (pyInt (dayRound 2 (157 / 50)) : ℚ)) 2 =
      decimalDigitsZ (⌊(157 / 50 : ℚ) * 10 ^ 2 + 1 / 2⌋ % 10 ^ 2) 2 ∧
    ⌊(dayRound 2 (157 / 50) - (pyInt (dayRound 2 (157 / 50)) : ℚ)) * 10 ^ 2⌋ =
      ⌊(157 / 50 : ℚ) * 10 ^ 2 + 1 / 2⌋ % 10 ^ 2 :=
  c6_rounding_bias.2 2 (157 / 50) (by norm_num)

end Julian
